import Mathlib

/-
Verification of the semantic checks of validate-regulators-config.py
(phosphor-power, phosphor-regulators configuration validator).

The script walks an already-parsed JSON document.  We model JSON values by
the inductive type Json below (objects keep entry order, as Python dicts
preserve insertion order).  Every check in the script either returns
normally, terminates the process via sys.exit after printing a specific
error (modeled by the constructors of VError), or raises an unmodeled
Python exception such as KeyError or TypeError (modeled by VError.pyError).
A check is therefore embedded as a function into the exception monad
PyM = Except VError.

The recursive cycle detector check_infinite_loops_in_rule is embedded with
an explicit fuel argument bounding only the depth of rule-to-rule recursion
(the loops over actions and over candidate rules consume no fuel); VError.fuelOut
marks fuel exhaustion.  The development proves that the fuel used by the
top-level pass (number of rules + 1) can never be exhausted.
-/

set_option linter.unusedVariables false
set_option linter.unnecessarySeqFocus false

inductive Json where
  | str (s : String)
  | num (n : Int)
  | bool (b : Bool)
  | null
  | arr (items : List Json)
  | obj (entries : List (String × Json))

mutual

def jeq : Json → Json → Bool
  | .str a, .str b => a == b
  | .num a, .num b => a == b
  | .bool a, .bool b => a == b
  | .null, .null => true
  | .arr a, .arr b => jeqItems a b
  | .obj a, .obj b => jeqEntries a b
  | _, _ => false

def jeqItems : List Json → List Json → Bool
  | [], [] => true
  | a :: as, b :: bs => jeq a b && jeqItems as bs
  | _, _ => false

def jeqEntries : List (String × Json) → List (String × Json) → Bool
  | [], [] => true
  | (k1, v1) :: as, (k2, v2) :: bs => k1 == k2 && jeq v1 v2 && jeqEntries as bs
  | _, _ => false

end

mutual

theorem jeq_iff : ∀ a b : Json, jeq a b = true ↔ a = b
  | .str a, .str b => by simp [jeq]
  | .num a, .num b => by simp [jeq]
  | .bool a, .bool b => by simp [jeq]
  | .null, .null => by simp [jeq]
  | .arr a, .arr b => by simp [jeq, jeqItems_iff a b]
  | .obj a, .obj b => by simp [jeq, jeqEntries_iff a b]
  | .str a, .num b => by simp [jeq]
  | .str a, .bool b => by simp [jeq]
  | .str a, .null => by simp [jeq]
  | .str a, .arr b => by simp [jeq]
  | .str a, .obj b => by simp [jeq]
  | .num a, .str b => by simp [jeq]
  | .num a, .bool b => by simp [jeq]
  | .num a, .null => by simp [jeq]
  | .num a, .arr b => by simp [jeq]
  | .num a, .obj b => by simp [jeq]
  | .bool a, .str b => by simp [jeq]
  | .bool a, .num b => by simp [jeq]
  | .bool a, .null => by simp [jeq]
  | .bool a, .arr b => by simp [jeq]
  | .bool a, .obj b => by simp [jeq]
  | .null, .str b => by simp [jeq]
  | .null, .num b => by simp [jeq]
  | .null, .bool b => by simp [jeq]
  | .null, .arr b => by simp [jeq]
  | .null, .obj b => by simp [jeq]
  | .arr a, .str b => by simp [jeq]
  | .arr a, .num b => by simp [jeq]
  | .arr a, .bool b => by simp [jeq]
  | .arr a, .null => by simp [jeq]
  | .arr a, .obj b => by simp [jeq]
  | .obj a, .str b => by simp [jeq]
  | .obj a, .num b => by simp [jeq]
  | .obj a, .bool b => by simp [jeq]
  | .obj a, .null => by simp [jeq]
  | .obj a, .arr b => by simp [jeq]

theorem jeqItems_iff : ∀ a b : List Json, jeqItems a b = true ↔ a = b
  | [], [] => by simp [jeqItems]
  | [], _ :: _ => by simp [jeqItems]
  | _ :: _, [] => by simp [jeqItems]
  | a :: as, b :: bs => by
      simp [jeqItems, jeq_iff a b, jeqItems_iff as bs]

theorem jeqEntries_iff : ∀ a b : List (String × Json), jeqEntries a b = true ↔ a = b
  | [], [] => by simp [jeqEntries]
  | [], _ :: _ => by simp [jeqEntries]
  | _ :: _, [] => by simp [jeqEntries]
  | (k1, v1) :: as, (k2, v2) :: bs => by
      simp [jeqEntries, jeq_iff v1 v2, jeqEntries_iff as bs, and_assoc]

end

instance : DecidableEq Json := fun a b => decidable_of_iff _ (jeq_iff a b)

/-- Errors a check can terminate with.  The first group models the distinct
sys.exit messages printed by the script; pyError models a raised Python
exception (KeyError, TypeError, AttributeError); fuelOut is the artifact of
the explicit recursion-depth fuel of the cycle detector. -/
inductive VError where
  | duplicateRuleId (id : String)
  | duplicateChassisNumber (number : Json)
  | duplicateDeviceId (id : String)
  | duplicateRailId (id : String)
  | duplicateObjectId (id : String)
  | infiniteLoop (path : List Json)
  | runRuleNotFound (id : String)
  | setDeviceNotFound (id : String)
  | ruleIdNotFound (id : String)
  | deviceIdNotFound (id : String)
  | masksSizeMismatch (action : String) (masks values : Json)
  | pyError
  | fuelOut
  deriving DecidableEq

instance {ε α : Type} [DecidableEq ε] [DecidableEq α] : DecidableEq (Except ε α)
  | .ok a, .ok b => decidable_of_iff (a = b) (by simp)
  | .error a, .error b => decidable_of_iff (a = b) (by simp)
  | .ok _, .error _ => isFalse (by simp)
  | .error _, .ok _ => isFalse (by simp)

abbrev PyM (α : Type) := Except VError α

/-- First value stored under a key in an object entry list; models Python
dict lookup (JSON objects parsed by Python have unique keys, so first equals
only). -/
def lookupFirst : List (String × Json) → String → Option Json
  | [], _ => none
  | (k, v) :: rest, key => if k = key then some v else lookupFirst rest key

/-- Python subscription d[key] for a string key: value for dicts holding the
key, KeyError for dicts without it, TypeError for every non-dict. -/
def pyGetItem (j : Json) (key : String) : PyM Json :=
  match j with
  | .obj entries =>
      match lookupFirst entries key with
      | some v => pure v
      | none => throw .pyError
  | _ => throw .pyError

/-- Python d.get(key, default): only dicts have the get method
(AttributeError otherwise). -/
def pyDictGet (j : Json) (key : String) (dflt : Json) : PyM Json :=
  match j with
  | .obj entries => pure ((lookupFirst entries key).getD dflt)
  | _ => throw .pyError

/-- Python iteration, as a list of produced elements: a list yields its
items, a dict yields its keys, a string yields its one-character substrings,
anything else raises TypeError. -/
def pyIterVals : Json → PyM (List Json)
  | .arr items => pure items
  | .obj entries => pure (entries.map (fun e => Json.str e.1))
  | .str s => pure (s.toList.map (fun c => Json.str (String.singleton c)))
  | _ => throw .pyError

/-- Whether the string needle occurs inside hay, modeling Python substring
membership. -/
def strHasSub (needle hay : String) : Bool :=
  if needle = "" then true else (hay.splitOn needle).length != 1

/-- Python membership x in container: key membership for dicts, element
membership for lists, substring test for strings (TypeError when the left
operand of a string test is not a string), TypeError for scalars. -/
def pyContains (x : Json) (container : Json) : PyM Bool :=
  match container with
  | .obj entries => pure (entries.any (fun e => jeq x (.str e.1)))
  | .arr items => pure (items.any (fun it => jeq x it))
  | .str s =>
      match x with
      | .str xs => pure (strHasSub xs s)
      | _ => throw .pyError
  | _ => throw .pyError

/-- Python len: defined for lists, dicts and strings, TypeError otherwise. -/
def pyLen : Json → PyM Nat
  | .arr items => pure items.length
  | .obj entries => pure entries.length
  | .str s => pure s.length
  | _ => throw .pyError

/- Model of get_values from the script: finds all occurrences of a key
within the JSON element and its children and returns the associated values,
threading the result accumulator exactly as the Python code threads its
result list.  A matched value is appended and not descended into (the elif);
unmatched dict or list values and list elements are recursed into. -/
mutual

def get_values : Json → String → List Json → List Json
  | .obj entries, key, result => get_values_entries entries key result
  | .arr items, key, result => get_values_items items key result
  | _, _, result => result

def get_values_entries : List (String × Json) → String → List Json → List Json
  | [], _, result => result
  | (k, v) :: rest, key, result =>
      get_values_entries rest key
        (if k = key then result ++ [v]
         else
           match v with
           | .obj _ => get_values v key result
           | .arr _ => get_values v key result
           | _ => result)

def get_values_items : List Json → String → List Json → List Json
  | [], _, result => result
  | item :: rest, key, result =>
      get_values_items rest key
        (match item with
         | .obj _ => get_values item key result
         | .arr _ => get_values item key result
         | _ => result)

end

/- Accumulator-free tree scan written from the words of the specification
(section 4.1 Tree Scanner): collect the value of every entry whose key
matches, recurse into non-matching map or sequence values and into map or
sequence elements, ignore scalars, preserve document order. -/
mutual

def treeScanSpec : Json → String → List Json
  | .obj entries, key => treeScanSpecEntries entries key
  | .arr items, key => treeScanSpecItems items key
  | _, _ => []

def treeScanSpecEntries : List (String × Json) → String → List Json
  | [], _ => []
  | (k, v) :: rest, key =>
      (if k = key then [v]
       else
         match v with
         | .obj _ => treeScanSpec v key
         | .arr _ => treeScanSpec v key
         | _ => []) ++ treeScanSpecEntries rest key

def treeScanSpecItems : List Json → String → List Json
  | [], _ => []
  | item :: rest, key =>
      (match item with
       | .obj _ => treeScanSpec item key
       | .arr _ => treeScanSpec item key
       | _ => []) ++ treeScanSpecItems rest key

end

mutual

theorem get_values_eq_spec : ∀ (j : Json) (key : String) (acc : List Json),
    get_values j key acc = acc ++ treeScanSpec j key
  | .obj entries, key, acc => by
      simp [get_values, treeScanSpec, get_values_entries_eq_spec entries key acc]
  | .arr items, key, acc => by
      simp [get_values, treeScanSpec, get_values_items_eq_spec items key acc]
  | .str s, key, acc => by simp [get_values, treeScanSpec]
  | .num n, key, acc => by simp [get_values, treeScanSpec]
  | .bool b, key, acc => by simp [get_values, treeScanSpec]
  | .null, key, acc => by simp [get_values, treeScanSpec]

theorem get_values_entries_eq_spec :
    ∀ (es : List (String × Json)) (key : String) (acc : List Json),
    get_values_entries es key acc = acc ++ treeScanSpecEntries es key
  | [], key, acc => by simp [get_values_entries, treeScanSpecEntries]
  | (k, v) :: rest, key, acc => by
      by_cases h : k = key
      · simp [get_values_entries, treeScanSpecEntries, h,
          get_values_entries_eq_spec rest key (acc ++ [v])]
      · match v with
        | .obj es =>
            simp [get_values_entries, treeScanSpecEntries, h,
              get_values_eq_spec (Json.obj es) key acc,
              get_values_entries_eq_spec rest key, List.append_assoc]
        | .arr its =>
            simp [get_values_entries, treeScanSpecEntries, h,
              get_values_eq_spec (Json.arr its) key acc,
              get_values_entries_eq_spec rest key, List.append_assoc]
        | .str s =>
            simp [get_values_entries, treeScanSpecEntries, h,
              get_values_entries_eq_spec rest key acc]
        | .num n =>
            simp [get_values_entries, treeScanSpecEntries, h,
              get_values_entries_eq_spec rest key acc]
        | .bool b =>
            simp [get_values_entries, treeScanSpecEntries, h,
              get_values_entries_eq_spec rest key acc]
        | .null =>
            simp [get_values_entries, treeScanSpecEntries, h,
              get_values_entries_eq_spec rest key acc]

theorem get_values_items_eq_spec :
    ∀ (its : List Json) (key : String) (acc : List Json),
    get_values_items its key acc = acc ++ treeScanSpecItems its key
  | [], key, acc => by simp [get_values_items, treeScanSpecItems]
  | item :: rest, key, acc => by
      match item with
      | .obj es =>
          simp [get_values_items, treeScanSpecItems,
            get_values_eq_spec (Json.obj es) key acc,
            get_values_items_eq_spec rest key, List.append_assoc]
      | .arr its2 =>
          simp [get_values_items, treeScanSpecItems,
            get_values_eq_spec (Json.arr its2) key acc,
            get_values_items_eq_spec rest key, List.append_assoc]
      | .str s =>
          simp [get_values_items, treeScanSpecItems, get_values_items_eq_spec rest key acc]
      | .num n =>
          simp [get_values_items, treeScanSpecItems, get_values_items_eq_spec rest key acc]
      | .bool b =>
          simp [get_values_items, treeScanSpecItems, get_values_items_eq_spec rest key acc]
      | .null =>
          simp [get_values_items, treeScanSpecItems, get_values_items_eq_spec rest key acc]

end

/-- The iterable produced by config_json.get("rules", {}): the list of rules
of the document (an empty dict iterates to nothing when the key is absent). -/
def pyRules (config : Json) : PyM (List Json) := do
  pyIterVals (← pyDictGet config "rules" (.obj []))

/-- The iterable produced by config_json.get("chassis", {}). -/
def pyChassis (config : Json) : PyM (List Json) := do
  pyIterVals (← pyDictGet config "chassis" (.obj []))

/-- Loop of get_rule_ids over the rules list, appending each rule id. -/
def get_rule_ids_loop : List Json → PyM (List Json)
  | [] => pure []
  | rule :: rest => do
      let rid ← pyGetItem rule "id"
      let restIds ← get_rule_ids_loop rest
      pure (rid :: restIds)

/-- Model of get_rule_ids: all rule IDs in the configuration file, in order;
a rule without an id raises KeyError. -/
def get_rule_ids (config : Json) : PyM (List Json) := do
  let rules ← pyRules config
  get_rule_ids_loop rules

/-- Inner loop of get_device_ids over the devices of one chassis. -/
def get_device_ids_devices : List Json → PyM (List Json)
  | [] => pure []
  | device :: rest => do
      let did ← pyGetItem device "id"
      let restIds ← get_device_ids_devices rest
      pure (did :: restIds)

/-- Outer loop of get_device_ids over the chassis list; the per-chassis id
lists are appended into the one shared list. -/
def get_device_ids_chassis : List Json → PyM (List Json)
  | [] => pure []
  | chassis :: rest => do
      let devices ← pyIterVals (← pyDictGet chassis "devices" (.obj []))
      let ids ← get_device_ids_devices devices
      let restIds ← get_device_ids_chassis rest
      pure (ids ++ restIds)

/-- Model of get_device_ids: all device IDs in the configuration file, in
chassis order then device order. -/
def get_device_ids (config : Json) : PyM (List Json) := do
  let chassisList ← pyChassis config
  get_device_ids_chassis chassisList

/-- Loop body shared by the four reference-existence checks of the script:
walk the scanned values in order and fail on the first one missing from the
valid list.  The printed message concatenates the offending value as a
string, so a non-string offender raises TypeError instead. -/
def ref_check_loop (mk : String → VError) (valid : List Json) : List Json → PyM Unit
  | [] => pure ()
  | v :: rest =>
      if v ∈ valid then ref_check_loop mk valid rest
      else
        match v with
        | .str s => throw (mk s)
        | _ => throw .pyError

/-- Model of check_rule_id_exists. -/
def check_rule_id_exists (config : Json) : PyM Unit := do
  let valid ← get_rule_ids config
  ref_check_loop VError.ruleIdNotFound valid (get_values config "rule_id" [])

/-- Model of check_device_id_exists. -/
def check_device_id_exists (config : Json) : PyM Unit := do
  let valid ← get_device_ids config
  ref_check_loop VError.deviceIdNotFound valid (get_values config "device_id" [])

/-- Model of check_set_device_value_exists. -/
def check_set_device_value_exists (config : Json) : PyM Unit := do
  let valid ← get_device_ids config
  ref_check_loop VError.setDeviceNotFound valid (get_values config "set_device" [])

/-- Model of check_run_rule_value_exists. -/
def check_run_rule_value_exists (config : Json) : PyM Unit := do
  let valid ← get_rule_ids config
  ref_check_loop VError.runRuleNotFound valid (get_values config "run_rule" [])

/-- Loop of check_number_of_elements_in_masks over one scanned object list:
for every object having a masks member, the lengths of masks and values
(each defaulting to the empty list) must agree. -/
def masks_loop (kind : String) : List Json → PyM Unit
  | [] => pure ()
  | object :: rest => do
      let hasMasks ← pyContains (.str "masks") object
      if hasMasks then do
        let masksVal ← pyDictGet object "masks" (.arr [])
        let valuesVal ← pyDictGet object "values" (.arr [])
        let lm ← pyLen masksVal
        let lv ← pyLen valuesVal
        if lm ≠ lv then throw (.masksSizeMismatch kind masksVal valuesVal)
        else masks_loop kind rest
      else masks_loop kind rest

/-- Model of check_number_of_elements_in_masks: scan the whole document for
i2c_write_bytes objects, then for i2c_compare_bytes objects, and check each
group with masks_loop. -/
def check_number_of_elements_in_masks (config : Json) : PyM Unit := do
  masks_loop "i2c_write_bytes" (get_values config "i2c_write_bytes" [])
  masks_loop "i2c_compare_bytes" (get_values config "i2c_compare_bytes" [])

/-- Inner loop of check_infinite_loops_in_rule over the rules of the config:
recurse (via the supplied recursion function) into every rule whose id
equals the run_rule target, threading the mutated call stack. -/
def run_matching_rules (recur : Json → List Json → PyM (List Json))
    (target : Json) : List Json → List Json → PyM (List Json)
  | [], stack => pure stack
  | rule :: rest, stack => do
      let rid ← pyGetItem rule "id"
      if rid = target then do
        let stack2 ← recur rule stack
        run_matching_rules recur target rest stack2
      else run_matching_rules recur target rest stack

/-- Body of the action loop of check_infinite_loops_in_rule for one action:
when the action carries a run_rule key, a target already on the call stack
is an infinite loop (the error records the stack with the target appended,
matching the printed path); otherwise recurse into every matching rule. -/
def process_action (recur : Json → List Json → PyM (List Json))
    (config : Json) (action : Json) (stack : List Json) : PyM (List Json) := do
  let hasRunRule ← pyContains (.str "run_rule") action
  if hasRunRule then do
    let target ← pyGetItem action "run_rule"
    if target ∈ stack then
      throw (.infiniteLoop (stack ++ [target]))
    else do
      let rules ← pyRules config
      run_matching_rules recur target rules stack
  else pure stack

/-- Model of check_infinite_loops_in_rule.  The Python function mutates the
call_stack list in place (append on entry, pop before a normal return); the
model threads the stack explicitly and returns its final state.  The fuel
argument bounds only the depth of rule-into-rule recursion; the development
proves that the bound used by check_infinite_loops is never exhausted. -/
def check_infinite_loops_in_rule :
    Nat → Json → Json → List Json → PyM (List Json)
  | 0, _, _, _ => throw .fuelOut
  | fuel + 1, config, rule_json, call_stack => do
      let rid ← pyGetItem rule_json "id"
      let actions ← pyIterVals (← pyDictGet rule_json "actions" (.obj []))
      let final ← actions.foldlM
        (fun stack action =>
          process_action (check_infinite_loops_in_rule fuel config) config
            action stack)
        (call_stack ++ [rid])
      pure final.dropLast

/-- Top-level loop of check_infinite_loops.  The Python default parameter
call_stack=[] is a single list object bound once at function definition and
shared by all top-level calls, so the stack left by one traversal is passed
on to the next; the model mirrors this by threading the stack through the
fold. -/
def check_infinite_loops_loop (fuel : Nat) (config : Json) :
    List Json → List Json → PyM (List Json)
  | [], stack => pure stack
  | rule :: rest, stack => do
      let stack2 ← check_infinite_loops_in_rule fuel config rule stack
      check_infinite_loops_loop fuel config rest stack2

/-- Model of check_infinite_loops: traverse every rule, sharing the stack
across traversals exactly as the shared default list does.  The fuel given
to each traversal is the number of rules plus one. -/
def check_infinite_loops (config : Json) : PyM Unit := do
  let rules ← pyRules config
  let _ ← check_infinite_loops_loop (rules.length + 1) config rules []
  pure ()

/-- Loop of check_duplicate_object_id: insert-if-absent over all id values
found anywhere in the document.  The Python set of seen ids is modeled by
the list of distinct values inserted so far.  The membership test hashes
the id, so an unhashable value (a list or a dict) raises TypeError right
there, before any comparison; the printed message concatenates the id, so
a non-string duplicate also raises TypeError. -/
def dup_id_loop : List Json → List Json → PyM Unit
  | [], _ => pure ()
  | v :: rest, seen =>
      match v with
      | .arr _ => throw .pyError
      | .obj _ => throw .pyError
      | _ =>
          if v ∈ seen then
            match v with
            | .str s => throw (.duplicateObjectId s)
            | _ => throw .pyError
          else dup_id_loop rest (seen ++ [v])

/-- Model of check_duplicate_object_id: no two JSON objects anywhere in the
document may share an id value; ids are collected by the deep tree scan. -/
def check_duplicate_object_id (config : Json) : PyM Unit :=
  dup_id_loop (get_values config "id" []) []

/-- Loop of check_duplicate_rule_id over the rules list. -/
def dup_rule_loop : List Json → List Json → PyM Unit
  | [], _ => pure ()
  | rule :: rest, seen => do
      let rid ← pyGetItem rule "id"
      if rid ∈ seen then
        match rid with
        | .str s => throw (.duplicateRuleId s)
        | _ => throw .pyError
      else dup_rule_loop rest (seen ++ [rid])

/-- Model of check_duplicate_rule_id. -/
def check_duplicate_rule_id (config : Json) : PyM Unit := do
  let rules ← pyRules config
  dup_rule_loop rules []

/-- Loop of check_duplicate_chassis_number over the chassis list (the
message prints str(number), total for every value). -/
def dup_chassis_loop : List Json → List Json → PyM Unit
  | [], _ => pure ()
  | chassis :: rest, seen => do
      let number ← pyGetItem chassis "number"
      if number ∈ seen then throw (.duplicateChassisNumber number)
      else dup_chassis_loop rest (seen ++ [number])

/-- Model of check_duplicate_chassis_number. -/
def check_duplicate_chassis_number (config : Json) : PyM Unit := do
  let chassisList ← pyChassis config
  dup_chassis_loop chassisList []

/-- Inner device loop of check_duplicate_device_id: the seen list is passed
in and returned, since the script shares one device_ids list across all
chassis. -/
def dup_device_inner : List Json → List Json → PyM (List Json)
  | [], seen => pure seen
  | device :: rest, seen => do
      let did ← pyGetItem device "id"
      if did ∈ seen then
        match did with
        | .str s => throw (.duplicateDeviceId s)
        | _ => throw .pyError
      else dup_device_inner rest (seen ++ [did])

/-- Outer chassis loop of check_duplicate_device_id. -/
def dup_device_outer : List Json → List Json → PyM (List Json)
  | [], seen => pure seen
  | chassis :: rest, seen => do
      let devices ← pyIterVals (← pyDictGet chassis "devices" (.obj []))
      let seen2 ← dup_device_inner devices seen
      dup_device_outer rest seen2

/-- Model of check_duplicate_device_id: one registry shared across all
chassis. -/
def check_duplicate_device_id (config : Json) : PyM Unit := do
  let chassisList ← pyChassis config
  let _ ← dup_device_outer chassisList []
  pure ()

/-- Innermost rail loop of check_duplicate_rail_id. -/
def dup_rail_inner : List Json → List Json → PyM (List Json)
  | [], seen => pure seen
  | rail :: rest, seen => do
      let rid ← pyGetItem rail "id"
      if rid ∈ seen then
        match rid with
        | .str s => throw (.duplicateRailId s)
        | _ => throw .pyError
      else dup_rail_inner rest (seen ++ [rid])

/-- Device loop of check_duplicate_rail_id. -/
def dup_rail_mid : List Json → List Json → PyM (List Json)
  | [], seen => pure seen
  | device :: rest, seen => do
      let rails ← pyIterVals (← pyDictGet device "rails" (.obj []))
      let seen2 ← dup_rail_inner rails seen
      dup_rail_mid rest seen2

/-- Chassis loop of check_duplicate_rail_id. -/
def dup_rail_outer : List Json → List Json → PyM (List Json)
  | [], seen => pure seen
  | chassis :: rest, seen => do
      let devices ← pyIterVals (← pyDictGet chassis "devices" (.obj []))
      let seen2 ← dup_rail_mid devices seen
      dup_rail_outer rest seen2

/-- Model of check_duplicate_rail_id: one registry shared across all devices
and chassis. -/
def check_duplicate_rail_id (config : Json) : PyM Unit := do
  let chassisList ← pyChassis config
  let _ ← dup_rail_outer chassisList []
  pure ()

/-- Model of check_for_duplicates: the five uniqueness passes in script
order. -/
def check_for_duplicates (config : Json) : PyM Unit := do
  check_duplicate_rule_id config
  check_duplicate_chassis_number config
  check_duplicate_device_id config
  check_duplicate_rail_id config
  check_duplicate_object_id config

/-- Model of the semantic part of the __main__ pipeline, after schema
validation: the checks run sequentially and the first failure aborts the
run (each check exits the process on failure). -/
def validate_config (config : Json) : PyM Unit := do
  check_for_duplicates config
  check_infinite_loops config
  check_run_rule_value_exists config
  check_set_device_value_exists config
  check_rule_id_exists config
  check_device_id_exists config
  check_number_of_elements_in_masks config

/-- Rail-level loop for the rail-ID list of the reference global-ID check
(rail IDs in document order: chassis, then devices, then rails, walking the
explicit structure like the scoped rail registry). -/
def get_rail_ids_rails : List Json → PyM (List Json)
  | [] => pure []
  | rail :: rest => do
      let rid ← pyGetItem rail "id"
      let restIds ← get_rail_ids_rails rest
      pure (rid :: restIds)

/-- Device-level loop collecting rail ids. -/
def get_rail_ids_devices : List Json → PyM (List Json)
  | [] => pure []
  | device :: rest => do
      let rails ← pyIterVals (← pyDictGet device "rails" (.obj []))
      let ids ← get_rail_ids_rails rails
      let restIds ← get_rail_ids_devices rest
      pure (ids ++ restIds)

/-- Chassis-level loop collecting rail ids. -/
def get_rail_ids_chassis : List Json → PyM (List Json)
  | [] => pure []
  | chassis :: rest => do
      let devices ← pyIterVals (← pyDictGet chassis "devices" (.obj []))
      let ids ← get_rail_ids_devices devices
      let restIds ← get_rail_ids_chassis rest
      pure (ids ++ restIds)

def get_rail_ids (config : Json) : PyM (List Json) := do
  let chassisList ← pyChassis config
  get_rail_ids_chassis chassisList

/-- Insert-if-absent loop written from the words of the specification
(section 4.2): walk the candidate list in order and fail on the first
repeated identifier (for a non-string repeat the failure is still the
collapsed message-building error). -/
def dup_id_loop_spec : List Json → List Json → PyM Unit
  | [], _ => pure ()
  | v :: rest, seen =>
      if v ∈ seen then
        match v with
        | .str s => throw (.duplicateObjectId s)
        | _ => throw .pyError
      else dup_id_loop_spec rest (seen ++ [v])

/-- Reference definition of the combined global-ID check, written from the
words of the specification (section 4.2, Global-ID registry): produce the
rule-ID, device-ID and rail-ID lists without reporting duplicates,
concatenate them in that order, then insert-if-absent over the combined
candidate list, failing on the first repeated identifier. -/
def global_id_check_spec (config : Json) : PyM Unit := do
  let ruleIds ← get_rule_ids config
  let deviceIds ← get_device_ids config
  let railIds ← get_rail_ids config
  dup_id_loop_spec (ruleIds ++ deviceIds ++ railIds) []

theorem pym_bind_ok {α β : Type} (a : α) (f : α → PyM β) :
    (Except.ok a : PyM α) >>= f = f a := rfl

theorem pym_bind_error {α β : Type} (e : VError) (f : α → PyM β) :
    (Except.error e : PyM α) >>= f = Except.error e := rfl

theorem pym_pure_eq {α : Type} (a : α) : (pure a : PyM α) = Except.ok a := rfl

theorem pym_throw_eq {α : Type} (e : VError) : (throw e : PyM α) = Except.error e := rfl

/-- The action fold of check_infinite_loops_in_rule, abstracted over the
function used to recurse into a matched rule. -/
def actions_fold (recur : Json → List Json → PyM (List Json)) (config : Json)
    (actions : List Json) (stack : List Json) : PyM (List Json) :=
  actions.foldlM (fun st a => process_action recur config a st) stack

theorem cilr_succ_eq (fuel : Nat) (config rule_json : Json) (call_stack : List Json) :
    check_infinite_loops_in_rule (fuel + 1) config rule_json call_stack =
      (do
        let rid ← pyGetItem rule_json "id"
        let actions ← pyIterVals (← pyDictGet rule_json "actions" (.obj []))
        let final ← actions_fold (check_infinite_loops_in_rule fuel config) config
          actions (call_stack ++ [rid])
        pure final.dropLast) := rfl

theorem run_matching_rules_pres
    {recur : Json → List Json → PyM (List Json)}
    (hrec : ∀ r st st', recur r st = .ok st' → st' = st) :
    ∀ (rules : List Json) (target : Json) (st st' : List Json),
      run_matching_rules recur target rules st = .ok st' → st' = st := by
  intro rules
  induction rules with
  | nil =>
      intro target st st' h
      simp only [run_matching_rules, pym_pure_eq, Except.ok.injEq] at h
      exact h.symm
  | cons rule rest ih =>
      intro target st st' h
      simp only [run_matching_rules] at h
      cases hid : pyGetItem rule "id" with
      | error e => rw [hid, pym_bind_error] at h; exact absurd h (by simp)
      | ok rid =>
          rw [hid, pym_bind_ok] at h
          by_cases ht : rid = target
          · rw [if_pos ht] at h
            cases hr : recur rule st with
            | error e => rw [hr, pym_bind_error] at h; exact absurd h (by simp)
            | ok st2 =>
                rw [hr, pym_bind_ok] at h
                have h2 := ih target st2 st' h
                rw [h2, hrec rule st st2 hr]
          · rw [if_neg ht] at h
            exact ih target st st' h

theorem process_action_pres
    {recur : Json → List Json → PyM (List Json)}
    (hrec : ∀ r st st', recur r st = .ok st' → st' = st)
    (config action : Json) (st st' : List Json)
    (h : process_action recur config action st = .ok st') : st' = st := by
  simp only [process_action] at h
  cases hc : pyContains (.str "run_rule") action with
  | error e => rw [hc, pym_bind_error] at h; exact absurd h (by simp)
  | ok b =>
      rw [hc, pym_bind_ok] at h
      cases b with
      | false =>
          simp only [Bool.false_eq_true, if_false, pym_pure_eq, Except.ok.injEq] at h
          exact h.symm
      | true =>
          simp only [if_true] at h
          cases htgt : pyGetItem action "run_rule" with
          | error e => rw [htgt, pym_bind_error] at h; exact absurd h (by simp)
          | ok target =>
              rw [htgt, pym_bind_ok] at h
              by_cases hmem : target ∈ st
              · rw [if_pos hmem, pym_throw_eq] at h; exact absurd h (by simp)
              · rw [if_neg hmem] at h
                cases hrl : pyRules config with
                | error e => rw [hrl, pym_bind_error] at h; exact absurd h (by simp)
                | ok rules =>
                    rw [hrl, pym_bind_ok] at h
                    exact run_matching_rules_pres hrec rules target st st' h

theorem actions_fold_pres
    {recur : Json → List Json → PyM (List Json)}
    (hrec : ∀ r st st', recur r st = .ok st' → st' = st) (config : Json) :
    ∀ (actions : List Json) (st st' : List Json),
      actions_fold recur config actions st = .ok st' → st' = st := by
  intro actions
  induction actions with
  | nil =>
      intro st st' h
      simp only [actions_fold, List.foldlM_nil, pym_pure_eq, Except.ok.injEq] at h
      exact h.symm
  | cons a rest ih =>
      intro st st' h
      simp only [actions_fold, List.foldlM_cons] at h
      cases hp : process_action recur config a st with
      | error e => rw [hp, pym_bind_error] at h; exact absurd h (by simp)
      | ok st2 =>
          rw [hp, pym_bind_ok] at h
          have h2 := ih st2 st' h
          rw [h2, process_action_pres hrec config a st st2 hp]

/-- A successful run of the modeled check_infinite_loops_in_rule leaves the
call stack exactly as it found it: the single append of the rule id is
undone by the single pop before the normal return. -/
theorem cilr_pres :
    ∀ (fuel : Nat) (config rule : Json) (st st' : List Json),
      check_infinite_loops_in_rule fuel config rule st = .ok st' → st' = st := by
  intro fuel
  induction fuel with
  | zero =>
      intro config rule st st' h
      simp only [check_infinite_loops_in_rule, pym_throw_eq] at h
      exact absurd h (by simp)
  | succ n ih =>
      intro config rule st st' h
      rw [cilr_succ_eq] at h
      cases hid : pyGetItem rule "id" with
      | error e => rw [hid, pym_bind_error] at h; exact absurd h (by simp)
      | ok rid =>
          rw [hid, pym_bind_ok] at h
          cases hdg : pyDictGet rule "actions" (.obj []) with
          | error e => rw [hdg, pym_bind_error] at h; exact absurd h (by simp)
          | ok av =>
              rw [hdg, pym_bind_ok] at h
              cases hit : pyIterVals av with
              | error e => rw [hit, pym_bind_error] at h; exact absurd h (by simp)
              | ok actions =>
                  rw [hit, pym_bind_ok] at h
                  cases hf : actions_fold (check_infinite_loops_in_rule n config)
                      config actions (st ++ [rid]) with
                  | error e => rw [hf, pym_bind_error] at h; exact absurd h (by simp)
                  | ok final =>
                      rw [hf, pym_bind_ok, pym_pure_eq, Except.ok.injEq] at h
                      have hfin : final = st ++ [rid] :=
                        actions_fold_pres (fun r s s' hh => ih config r s s' hh)
                          config actions (st ++ [rid]) final hf
                      rw [← h, hfin, List.dropLast_concat]

/-- Preservation for the top-level loop that shares the stack across
traversals. -/
theorem cil_loop_pres :
    ∀ (fuel : Nat) (config : Json) (rules : List Json) (st st' : List Json),
      check_infinite_loops_loop fuel config rules st = .ok st' → st' = st := by
  intro fuel config rules
  induction rules with
  | nil =>
      intro st st' h
      simp only [check_infinite_loops_loop, pym_pure_eq, Except.ok.injEq] at h
      exact h.symm
  | cons rule rest ih =>
      intro st st' h
      simp only [check_infinite_loops_loop] at h
      cases hr : check_infinite_loops_in_rule fuel config rule st with
      | error e => rw [hr, pym_bind_error] at h; exact absurd h (by simp)
      | ok st2 =>
          rw [hr, pym_bind_ok] at h
          have h2 := ih st2 st' h
          rw [h2, cilr_pres fuel config rule st st2 hr]

/-- The id values of the rules of the document, in order, skipping rules
without an id; used only to measure how much rule-recursion depth remains. -/
def idsOfConfig (config : Json) : List Json :=
  match pyRules config with
  | .ok rules =>
      rules.filterMap (fun r =>
        match pyGetItem r "id" with
        | .ok i => some i
        | .error _ => none)
  | .error _ => []

/-- Number of distinct rule ids not yet on the call stack: the measure that
bounds the remaining depth of rule-into-rule recursion. -/
def numIds (config : Json) (stack : List Json) : Nat :=
  ((idsOfConfig config).toFinset \ stack.toFinset).card

theorem mem_idsOfConfig {config r : Json} {rulesL : List Json} {t : Json}
    (hR : pyRules config = .ok rulesL) (hr : r ∈ rulesL)
    (ht : pyGetItem r "id" = .ok t) : t ∈ idsOfConfig config := by
  simp only [idsOfConfig, hR]
  exact List.mem_filterMap.mpr ⟨r, hr, by simp [ht]⟩

theorem numIds_push_lt {config : Json} {stack : List Json} {t : Json}
    (h1 : t ∈ idsOfConfig config) (h2 : t ∉ stack) :
    numIds config (stack ++ [t]) < numIds config stack := by
  simp only [numIds, List.toFinset_append]
  apply Finset.card_lt_card
  constructor
  · exact Finset.sdiff_subset_sdiff (le_refl _) Finset.subset_union_left
  · intro hsub
    have hmem : t ∈ (idsOfConfig config).toFinset \ stack.toFinset := by
      simp [List.mem_toFinset, h1, h2]
    have := hsub hmem
    simp [Finset.mem_sdiff] at this

theorem numIds_push_le (config : Json) (stack : List Json) (x : Json) :
    numIds config (stack ++ [x]) ≤ numIds config stack := by
  simp only [numIds, List.toFinset_append]
  exact Finset.card_le_card
    (Finset.sdiff_subset_sdiff (le_refl _) Finset.subset_union_left)

theorem numIds_pos {config : Json} {stack : List Json} {t : Json}
    (h1 : t ∈ idsOfConfig config) (h2 : t ∉ stack) :
    1 ≤ numIds config stack := by
  have : t ∈ (idsOfConfig config).toFinset \ stack.toFinset := by
    simp [List.mem_toFinset, h1, h2]
  exact Finset.card_pos.mpr ⟨t, this⟩

theorem numIds_le_length {config : Json} {rulesL : List Json}
    (hR : pyRules config = .ok rulesL) (stack : List Json) :
    numIds config stack ≤ rulesL.length := by
  calc numIds config stack ≤ (idsOfConfig config).toFinset.card :=
        Finset.card_le_card (Finset.sdiff_subset)
    _ ≤ (idsOfConfig config).length := List.toFinset_card_le _
    _ ≤ rulesL.length := by
        simp only [idsOfConfig, hR]
        exact List.length_filterMap_le _ _

theorem pyGetItem_err {j : Json} {k : String} {e : VError}
    (h : pyGetItem j k = .error e) : e = .pyError := by
  cases j <;> simp_all [pyGetItem, pym_throw_eq]
  case obj entries =>
    revert h
    cases lookupFirst entries k <;> simp [pym_throw_eq, pym_pure_eq] <;>
      exact fun h2 => h2.symm

theorem pyDictGet_err {j : Json} {k : String} {d : Json} {e : VError}
    (h : pyDictGet j k d = .error e) : e = .pyError := by
  cases j <;> simp_all [pyDictGet, pym_throw_eq, pym_pure_eq]

theorem pyIterVals_err {j : Json} {e : VError}
    (h : pyIterVals j = .error e) : e = .pyError := by
  cases j <;> simp_all [pyIterVals, pym_throw_eq, pym_pure_eq]

theorem pyContains_err {x j : Json} {e : VError}
    (h : pyContains x j = .error e) : e = .pyError := by
  cases j <;> simp_all [pyContains, pym_throw_eq, pym_pure_eq]
  case str s =>
    revert h
    cases x <;> simp [pym_throw_eq, pym_pure_eq] <;> exact fun h2 => h2.symm

theorem pyRules_err {config : Json} {e : VError}
    (h : pyRules config = .error e) : e = .pyError := by
  simp only [pyRules] at h
  cases hd : pyDictGet config "rules" (.obj []) with
  | error e2 =>
      rw [hd, pym_bind_error] at h
      cases h
      exact pyDictGet_err hd
  | ok v =>
      rw [hd, pym_bind_ok] at h
      exact pyIterVals_err h

theorem run_matching_rules_no_fuel
    {recur : Json → List Json → PyM (List Json)}
    {rulesL : List Json}
    (hpres : ∀ r st st', recur r st = .ok st' → st' = st)
    (hrec : ∀ r t, r ∈ rulesL → pyGetItem r "id" = .ok t → t ∉ target_stack →
      recur r target_stack ≠ .error .fuelOut)
    {target : Json} (htv : target ∉ target_stack) :
    ∀ rules : List Json, (∀ r ∈ rules, r ∈ rulesL) →
      run_matching_rules recur target rules target_stack ≠ .error .fuelOut := by
  intro rules
  induction rules with
  | nil => intro _; simp [run_matching_rules, pym_pure_eq]
  | cons rule rest ih =>
      intro hsub
      simp only [run_matching_rules]
      cases hid : pyGetItem rule "id" with
      | error e =>
          rw [pym_bind_error]
          intro hcontra
          cases hcontra
          exact absurd (pyGetItem_err hid) (by simp)
      | ok rid =>
          rw [pym_bind_ok]
          by_cases ht : rid = target
          · rw [if_pos ht]
            cases hr : recur rule target_stack with
            | error e =>
                rw [pym_bind_error]
                intro hcontra
                cases hcontra
                exact hrec rule target (hsub rule (by simp)) (ht ▸ hid) htv hr
            | ok st2 =>
                rw [pym_bind_ok]
                rw [hpres rule target_stack st2 hr]
                exact ih (fun r hrr => hsub r (by simp [hrr]))
          · rw [if_neg ht]
            exact ih (fun r hrr => hsub r (by simp [hrr]))

theorem process_action_no_fuel
    {recur : Json → List Json → PyM (List Json)} {config : Json}
    {stack : List Json}
    (hpres : ∀ r st st', recur r st = .ok st' → st' = st)
    (hrec : ∀ r t, (∃ rulesL, pyRules config = .ok rulesL ∧ r ∈ rulesL) →
      pyGetItem r "id" = .ok t → t ∉ stack →
      recur r stack ≠ .error .fuelOut)
    (action : Json) :
    process_action recur config action stack ≠ .error .fuelOut := by
  simp only [process_action]
  cases hc : pyContains (.str "run_rule") action with
  | error e =>
      rw [pym_bind_error]
      intro hcontra
      cases hcontra
      exact absurd (pyContains_err hc) (by simp)
  | ok b =>
      rw [pym_bind_ok]
      cases b with
      | false => simp [pym_pure_eq]
      | true =>
          rw [if_pos rfl]
          cases htgt : pyGetItem action "run_rule" with
          | error e =>
              rw [pym_bind_error]
              intro hcontra
              cases hcontra
              exact absurd (pyGetItem_err htgt) (by simp)
          | ok target =>
              rw [pym_bind_ok]
              by_cases hmem : target ∈ stack
              · rw [if_pos hmem, pym_throw_eq]; simp
              · rw [if_neg hmem]
                cases hrl : pyRules config with
                | error e =>
                    rw [pym_bind_error]
                    intro hcontra
                    cases hcontra
                    exact absurd (pyRules_err hrl) (by simp)
                | ok rulesL =>
                    rw [pym_bind_ok]
                    exact run_matching_rules_no_fuel hpres
                      (fun r t hr hid htv =>
                        hrec r t ⟨rulesL, hrl, hr⟩ hid htv)
                      hmem rulesL (fun r hr => hr)

theorem actions_fold_no_fuel
    {recur : Json → List Json → PyM (List Json)} {config : Json}
    {stack : List Json}
    (hpres : ∀ r st st', recur r st = .ok st' → st' = st)
    (hrec : ∀ r t, (∃ rulesL, pyRules config = .ok rulesL ∧ r ∈ rulesL) →
      pyGetItem r "id" = .ok t → t ∉ stack →
      recur r stack ≠ .error .fuelOut) :
    ∀ actions : List Json,
      actions_fold recur config actions stack ≠ .error .fuelOut := by
  intro actions
  induction actions with
  | nil => simp [actions_fold, List.foldlM_nil, pym_pure_eq]
  | cons a rest ih =>
      simp only [actions_fold, List.foldlM_cons]
      cases hp : process_action recur config a stack with
      | error e =>
          rw [pym_bind_error]
          intro hcontra
          cases hcontra
          exact process_action_no_fuel hpres hrec a hp
      | ok st2 =>
          rw [pym_bind_ok]
          rw [process_action_pres hpres config a stack st2 hp]
          exact ih

/-- Fuel sufficiency: a traversal never exhausts its fuel when the fuel
exceeds the number of distinct rule ids missing from the stack after the
initial push. -/
theorem cilr_no_fuel :
    ∀ (fuel : Nat) (config rule : Json) (st : List Json),
      0 < fuel →
      (∀ rid, pyGetItem rule "id" = .ok rid → numIds config (st ++ [rid]) < fuel) →
      check_infinite_loops_in_rule fuel config rule st ≠ .error .fuelOut := by
  intro fuel
  induction fuel with
  | zero => intro _ _ _ hpos _; exact absurd hpos (by simp)
  | succ n ih =>
      intro config rule st _ hb
      rw [cilr_succ_eq]
      cases hid : pyGetItem rule "id" with
      | error e =>
          rw [pym_bind_error]
          intro hcontra
          cases hcontra
          exact absurd (pyGetItem_err hid) (by simp)
      | ok rid =>
          rw [pym_bind_ok]
          cases hdg : pyDictGet rule "actions" (.obj []) with
          | error e =>
              rw [pym_bind_error]
              intro hcontra
              cases hcontra
              exact absurd (pyDictGet_err hdg) (by simp)
          | ok av =>
              rw [pym_bind_ok]
              cases hit : pyIterVals av with
              | error e =>
                  rw [pym_bind_error]
                  intro hcontra
                  cases hcontra
                  exact absurd (pyIterVals_err hit) (by simp)
              | ok actions =>
                  rw [pym_bind_ok]
                  have hnum : numIds config (st ++ [rid]) ≤ n :=
                    Nat.lt_succ_iff.mp (hb rid hid)
                  have hrec : ∀ r t,
                      (∃ rulesL, pyRules config = .ok rulesL ∧ r ∈ rulesL) →
                      pyGetItem r "id" = .ok t → t ∉ st ++ [rid] →
                      check_infinite_loops_in_rule n config r (st ++ [rid]) ≠
                        .error .fuelOut := by
                    intro r t hex hidr htnm
                    obtain ⟨rulesL, hrl, hr⟩ := hex
                    have htin : t ∈ idsOfConfig config :=
                      mem_idsOfConfig hrl hr hidr
                    have hpos2 : 0 < n :=
                      lt_of_lt_of_le (numIds_pos htin htnm) hnum
                    apply ih config r (st ++ [rid]) hpos2
                    intro rid2 hid2
                    have : rid2 = t := by
                      rw [hidr] at hid2
                      exact (Except.ok.injEq _ _ ▸ hid2).symm
                    subst this
                    exact lt_of_lt_of_le (numIds_push_lt htin htnm) hnum
                  cases hf : actions_fold (check_infinite_loops_in_rule n config)
                      config actions (st ++ [rid]) with
                  | error e =>
                      rw [pym_bind_error]
                      intro hcontra
                      cases hcontra
                      exact actions_fold_no_fuel
                        (fun r s s' hh => cilr_pres n config r s s' hh)
                        hrec actions hf
                  | ok final =>
                      rw [pym_bind_ok, pym_pure_eq]
                      simp

/-- The top-level pass never exhausts its fuel: along the top loop the stack
stays empty, and for each traversal the measure from the singleton stack is
at most the number of rules. -/
theorem cil_loop_no_fuel {config : Json} {rulesL : List Json}
    (hR : pyRules config = .ok rulesL) :
    ∀ rules2 : List Json,
      check_infinite_loops_loop (rulesL.length + 1) config rules2 [] ≠
        .error .fuelOut := by
  intro rules2
  induction rules2 with
  | nil => simp [check_infinite_loops_loop, pym_pure_eq]
  | cons rule rest ih =>
      simp only [check_infinite_loops_loop]
      cases hr : check_infinite_loops_in_rule (rulesL.length + 1) config rule [] with
      | error e =>
          rw [pym_bind_error]
          intro hcontra
          cases hcontra
          refine cilr_no_fuel (rulesL.length + 1) config rule [] (by simp) ?_ hr
          intro rid hid
          calc numIds config ([] ++ [rid]) ≤ numIds config [] :=
                numIds_push_le config [] rid
            _ ≤ rulesL.length := numIds_le_length hR []
            _ < rulesL.length + 1 := Nat.lt_succ_self _
      | ok st2 =>
          rw [pym_bind_ok]
          rw [cilr_pres _ config rule [] st2 hr]
          exact ih

/-- The modeled check_infinite_loops is total: the fuel it allocates (number
of rules + 1) can never be exhausted, whatever the document. -/
theorem check_infinite_loops_no_fuel (config : Json) :
    check_infinite_loops config ≠ .error .fuelOut := by
  simp only [check_infinite_loops]
  cases hR : pyRules config with
  | error e =>
      rw [pym_bind_error]
      intro hcontra
      cases hcontra
      exact absurd (pyRules_err hR) (by simp)
  | ok rulesL =>
      rw [pym_bind_ok]
      cases hl : check_infinite_loops_loop (rulesL.length + 1) config rulesL [] with
      | error e =>
          rw [pym_bind_error]
          intro hcontra
          cases hcontra
          exact cil_loop_no_fuel hR rulesL hl
      | ok st =>
          rw [pym_bind_ok, pym_pure_eq]
          simp

/-- Rule object with a given id whose actions are run_rule actions on the
given targets, used to build concrete documents. -/
def mkRule (id : String) (targets : List String) : Json :=
  .obj [("id", .str id),
        ("actions", .arr (targets.map (fun t => .obj [("run_rule", .str t)])))]

/-- Document of the concrete scenario of the specification: two rules that
invoke each other. -/
def docTwoRules12 : Json :=
  .obj [("rules", .arr [mkRule "r1" ["r2"], mkRule "r2" ["r1"]])]

/-- Same two mutually recursive rules, listed in the other order. -/
def docTwoRules21 : Json :=
  .obj [("rules", .arr [mkRule "r2" ["r1"], mkRule "r1" ["r2"]])]

/-- Document with a self-loop rule listed before a pair of mutually
recursive rules. -/
def docSelfLoopFirst : Json :=
  .obj [("rules", .arr [mkRule "c" ["c"], mkRule "a" ["b"], mkRule "b" ["a"]])]

/-- Diamond-shaped acyclic rule graph: bot is reachable from top through two
disjoint paths. -/
def docDiamond : Json :=
  .obj [("rules", .arr
    [mkRule "top" ["l", "r"], mkRule "l" ["bot"], mkRule "r" ["bot"],
     mkRule "bot" []])]

/-- C9: check_infinite_loops_in_rule preserves the call stack across normal
returns (each append is matched by exactly one pop), the top-level loop that
threads the single shared default list therefore also preserves it, and
consequently after a successful traversal the next top-level traversal
starts from the same empty stack, observing no residue. -/
theorem claim_C9_call_stack_preserved :
    (∀ (fuel : Nat) (config rule : Json) (st st' : List Json),
      check_infinite_loops_in_rule fuel config rule st = .ok st' → st' = st) ∧
    (∀ (fuel : Nat) (config : Json) (rules : List Json) (st st' : List Json),
      check_infinite_loops_loop fuel config rules st = .ok st' → st' = st) ∧
    (∀ (fuel : Nat) (config rule : Json) (rest : List Json) (st' : List Json),
      check_infinite_loops_in_rule fuel config rule [] = .ok st' →
      check_infinite_loops_loop fuel config (rule :: rest) [] =
        check_infinite_loops_loop fuel config rest []) := by
  refine ⟨cilr_pres, cil_loop_pres, ?_⟩
  intro fuel config rule rest st' h
  simp only [check_infinite_loops_loop, h, pym_bind_ok]
  rw [cilr_pres fuel config rule [] st' h]

/-- Witness for C9 at a concrete acyclic document: the first traversal
succeeds with an empty final stack, so dropping it from the loop leaves the
result unchanged. -/
theorem claim_C9_witness :
    check_infinite_loops_loop 5 docDiamond [mkRule "l" ["bot"], mkRule "bot" []] [] =
      check_infinite_loops_loop 5 docDiamond [mkRule "bot" []] [] :=
  claim_C9_call_stack_preserved.2.2 5 docDiamond (mkRule "l" ["bot"])
    [mkRule "bot" []] [] (by decide)

/-- C10: the cycle detection pass terminates on every finite document: a
rule id is pushed only when absent from the path stack, so the depth of
rule-into-rule recursion is bounded by the number of rules; with the fuel
budget of number of rules + 1 per traversal, neither the whole pass nor any
single traversal of a rule of the document can exhaust its fuel, making the
pass a total function of the document. -/
theorem claim_C10_cycle_detection_terminates :
    (∀ config : Json, check_infinite_loops config ≠ .error .fuelOut) ∧
    (∀ (config rule : Json) (rulesL : List Json),
      pyRules config = .ok rulesL → rule ∈ rulesL →
      check_infinite_loops_in_rule (rulesL.length + 1) config rule [] ≠
        .error .fuelOut) := by
  refine ⟨check_infinite_loops_no_fuel, ?_⟩
  intro config rule rulesL hR hr
  refine cilr_no_fuel (rulesL.length + 1) config rule [] (by simp) ?_
  intro rid hid
  calc numIds config ([] ++ [rid]) ≤ numIds config [] := numIds_push_le config [] rid
    _ ≤ rulesL.length := numIds_le_length hR []
    _ < rulesL.length + 1 := Nat.lt_succ_self _

/-- Witness for C10 at a concrete document containing a genuine cycle: even
there the pass fails with an infinite-loop error, never with fuel
exhaustion. -/
theorem claim_C10_witness :
    check_infinite_loops_in_rule 4 docSelfLoopFirst (mkRule "a" ["b"]) [] ≠
      .error .fuelOut :=
  claim_C10_cycle_detection_terminates.2 docSelfLoopFirst (mkRule "a" ["b"])
    [mkRule "c" ["c"], mkRule "a" ["b"], mkRule "b" ["a"]] (by decide) (by decide)

/-- C4: the tree scan returns exactly the values of map entries whose key
equals the target key, in document traversal order with duplicates
preserved, never descending into a matched value, descending element-wise
into sequences and ignoring scalars (the accumulator-free function
treeScanSpec is literally that description), and it is pure: the result is
the input accumulator extended by a function of the inputs alone. -/
theorem claim_C4_get_values_spec :
    ∀ (json_element : Json) (key : String) (result : List Json),
      get_values json_element key result = result ++ treeScanSpec json_element key :=
  get_values_eq_spec

theorem dup_id_loop_spec_ok_iff :
    ∀ (l seen : List Json),
      dup_id_loop_spec l seen = .ok () ↔ (∀ v ∈ l, v ∉ seen) ∧ l.Nodup := by
  intro l
  induction l with
  | nil => intro seen; simp [dup_id_loop_spec, pym_pure_eq]
  | cons v rest ih =>
      intro seen
      simp only [dup_id_loop_spec]
      by_cases hv : v ∈ seen
      · rw [if_pos hv]
        constructor
        · intro h
          exfalso
          revert h
          cases v <;> simp [pym_throw_eq]
        · intro ⟨hall, _⟩
          exact absurd hv (hall v (by simp))
      · rw [if_neg hv]
        rw [ih (seen ++ [v])]
        constructor
        · intro ⟨hall, hnd⟩
          refine ⟨?_, ?_⟩
          · intro u hu
            rw [List.mem_cons] at hu
            rcases hu with hu | hu
            · rw [hu]; exact hv
            · intro hus
              exact hall u hu (List.mem_append.mpr (Or.inl hus))
          · rw [List.nodup_cons]
            refine ⟨?_, hnd⟩
            intro hvrest
            exact hall v hvrest (List.mem_append.mpr (Or.inr (by simp)))
        · intro ⟨hall, hnd⟩
          rw [List.nodup_cons] at hnd
          refine ⟨?_, hnd.2⟩
          intro u hu
          simp only [List.mem_append, List.mem_singleton]
          push_neg
          refine ⟨hall u (by simp [hu]), ?_⟩
          intro huv
          rw [huv] at hu
          exact hnd.1 hu

theorem dup_id_loop_eq_spec :
    ∀ (l seen : List Json), (∀ v ∈ l, ∃ s, v = .str s) →
      dup_id_loop l seen = dup_id_loop_spec l seen := by
  intro l
  induction l with
  | nil => intro seen _; rfl
  | cons v rest ih =>
      intro seen hstr
      obtain ⟨s, hs⟩ := hstr v (by simp)
      subst hs
      simp only [dup_id_loop, dup_id_loop_spec]
      by_cases hv : (Json.str s) ∈ seen
      · rw [if_pos hv, if_pos hv]
      · rw [if_neg hv, if_neg hv]
        exact ih (seen ++ [Json.str s]) (fun u hu => hstr u (by simp [hu]))

/-- Document whose only id values sit outside the rules, chassis, devices
and rails structure (under an unrelated key), where the deep scan of the
implementation sees duplicates while the reference candidate list is
empty. -/
def docStrayId : Json :=
  .obj [("other", .arr [.obj [("id", .str "q")], .obj [("id", .str "q")]])]

/-- C2 counterexample: the implemented global check rejects docStrayId with
a duplicate-ID error on q while the reference definition built from the
rule, device and rail ID lists accepts it, so the two checks do not accept
the same documents. -/
theorem claim_C2_counterexample :
    check_duplicate_object_id docStrayId = .error (.duplicateObjectId "q") ∧
    global_id_check_spec docStrayId = .ok () := by
  constructor
  · decide
  · decide

/-- C2 amended: the implemented check performs insert-if-absent over the
deep scan of every id value anywhere in the document, not over the
concatenation rule IDs ++ device IDs ++ rail IDs, and it hashes each
scanned value into a set, so an unhashable (array or object) id value makes
it crash where the reference is unaffected.  For documents whose scanned id
values are strings, as the data model requires: when the deep scan is a
permutation of that concatenation the two checks accept exactly the same
documents, and when the deep scan equals the concatenation they moreover
report identical results (same first duplicate). -/
theorem claim_C2_global_id_refinement :
    (∀ (config : Json) (ruleIds deviceIds railIds : List Json),
      get_rule_ids config = .ok ruleIds →
      get_device_ids config = .ok deviceIds →
      get_rail_ids config = .ok railIds →
      (∀ v ∈ get_values config "id" [], ∃ s, v = .str s) →
      (get_values config "id" []).Perm (ruleIds ++ deviceIds ++ railIds) →
      (check_duplicate_object_id config = .ok () ↔
        global_id_check_spec config = .ok ())) ∧
    (∀ (config : Json) (ruleIds deviceIds railIds : List Json),
      get_rule_ids config = .ok ruleIds →
      get_device_ids config = .ok deviceIds →
      get_rail_ids config = .ok railIds →
      (∀ v ∈ get_values config "id" [], ∃ s, v = .str s) →
      get_values config "id" [] = ruleIds ++ deviceIds ++ railIds →
      check_duplicate_object_id config = global_id_check_spec config) := by
  constructor
  · intro config ruleIds deviceIds railIds hr hd hra hstr hperm
    simp only [check_duplicate_object_id, global_id_check_spec, hr, hd, hra,
      pym_bind_ok]
    rw [dup_id_loop_eq_spec _ _ hstr]
    rw [dup_id_loop_spec_ok_iff, dup_id_loop_spec_ok_iff]
    simp only [List.not_mem_nil, not_false_iff, imp_true_iff, true_and]
    exact ⟨fun h => (hperm.nodup_iff).mp h, fun h => (hperm.nodup_iff).mpr h⟩
  · intro config ruleIds deviceIds railIds hr hd hra hstr heq
    simp only [check_duplicate_object_id, global_id_check_spec, hr, hd, hra,
      pym_bind_ok]
    rw [dup_id_loop_eq_spec _ _ hstr, heq]

/-- Well-shaped document with one rule r, one device d and one rail rl. -/
def docC2Wit : Json :=
  .obj [("rules", .arr [mkRule "r" []]),
        ("chassis", .arr [.obj [("number", .num 1),
          ("devices", .arr [.obj [("id", .str "d"),
            ("rails", .arr [.obj [("id", .str "rl")]])]])]])]

/-- Witness for the amended C2 at a well-shaped document with ids r, d and
rl for its rule, device and rail: both checks accept. -/
theorem claim_C2_witness :
    check_duplicate_object_id docC2Wit = .ok () ↔
      global_id_check_spec docC2Wit = .ok () :=
  claim_C2_global_id_refinement.1 docC2Wit
    [.str "r"] [.str "d"] [.str "rl"]
    (by decide) (by decide) (by decide)
    (by
      intro v hv
      rw [show get_values docC2Wit "id" [] =
        [Json.str "r", Json.str "d", Json.str "rl"] from by decide] at hv
      fin_cases hv <;> exact ⟨_, rfl⟩)
    (by decide)

theorem get_rule_ids_loop_mem :
    ∀ (rules ids : List Json), get_rule_ids_loop rules = .ok ids →
      ∀ r ∈ rules, ∃ i ∈ ids, pyGetItem r "id" = .ok i := by
  intro rules
  induction rules with
  | nil => intro ids _ r hr; exact absurd hr (by simp)
  | cons rule rest ih =>
      intro ids h r hr
      simp only [get_rule_ids_loop] at h
      cases hid : pyGetItem rule "id" with
      | error e => rw [hid, pym_bind_error] at h; exact absurd h (by simp)
      | ok rid =>
          rw [hid, pym_bind_ok] at h
          cases hrest : get_rule_ids_loop rest with
          | error e => rw [hrest, pym_bind_error] at h; exact absurd h (by simp)
          | ok restIds =>
              rw [hrest, pym_bind_ok, pym_pure_eq, Except.ok.injEq] at h
              subst h
              rw [List.mem_cons] at hr
              rcases hr with hr | hr
              · exact ⟨rid, by simp, hr ▸ hid⟩
              · obtain ⟨i, hi, hgi⟩ := ih restIds hrest r hr
                exact ⟨i, by simp [hi], hgi⟩

theorem dup_rule_loop_ok_iff :
    ∀ (rules ids seen : List Json), get_rule_ids_loop rules = .ok ids →
      (dup_rule_loop rules seen = .ok () ↔ (∀ v ∈ ids, v ∉ seen) ∧ ids.Nodup) := by
  intro rules
  induction rules with
  | nil =>
      intro ids seen h
      simp only [get_rule_ids_loop, pym_pure_eq, Except.ok.injEq] at h
      subst h
      simp [dup_rule_loop, pym_pure_eq]
  | cons rule rest ih =>
      intro ids seen h
      simp only [get_rule_ids_loop] at h
      cases hid : pyGetItem rule "id" with
      | error e => rw [hid, pym_bind_error] at h; exact absurd h (by simp)
      | ok rid =>
          rw [hid, pym_bind_ok] at h
          cases hrest : get_rule_ids_loop rest with
          | error e => rw [hrest, pym_bind_error] at h; exact absurd h (by simp)
          | ok restIds =>
              rw [hrest, pym_bind_ok, pym_pure_eq, Except.ok.injEq] at h
              subst h
              simp only [dup_rule_loop, hid, pym_bind_ok]
              by_cases hv : rid ∈ seen
              · rw [if_pos hv]
                constructor
                · intro hcontra
                  exfalso
                  revert hcontra
                  cases rid <;> simp [pym_throw_eq]
                · intro ⟨hall, _⟩
                  exact absurd hv (hall rid (by simp))
              · rw [if_neg hv]
                rw [ih restIds (seen ++ [rid]) hrest]
                constructor
                · intro ⟨hall, hnd⟩
                  refine ⟨?_, ?_⟩
                  · intro u hu
                    rw [List.mem_cons] at hu
                    rcases hu with hu | hu
                    · rw [hu]; exact hv
                    · intro hus
                      exact hall u hu (List.mem_append.mpr (Or.inl hus))
                  · rw [List.nodup_cons]
                    refine ⟨?_, hnd⟩
                    intro hvrest
                    exact hall rid hvrest (List.mem_append.mpr (Or.inr (by simp)))
                · intro ⟨hall, hnd⟩
                  rw [List.nodup_cons] at hnd
                  refine ⟨?_, hnd.2⟩
                  intro u hu
                  simp only [List.mem_append, List.mem_singleton]
                  push_neg
                  refine ⟨hall u (by simp [hu]), ?_⟩
                  intro huv
                  rw [huv] at hu
                  exact hnd.1 hu

theorem dup_rule_loop_err_form :
    ∀ (rules seen : List Json),
      (∀ r ∈ rules, ∃ s, pyGetItem r "id" = .ok (.str s)) →
      dup_rule_loop rules seen = .ok () ∨
        ∃ s, dup_rule_loop rules seen = .error (.duplicateRuleId s) := by
  intro rules
  induction rules with
  | nil => intro seen _; left; simp [dup_rule_loop, pym_pure_eq]
  | cons rule rest ih =>
      intro seen hstr
      obtain ⟨s, hs⟩ := hstr rule (by simp)
      simp only [dup_rule_loop, hs, pym_bind_ok]
      by_cases hv : (Json.str s) ∈ seen
      · right
        exact ⟨s, by rw [if_pos hv]; rfl⟩
      · rw [if_neg hv]
        exact ih (seen ++ [.str s]) (fun r hr => hstr r (by simp [hr]))

/-- Document with two rules sharing the id x. -/
def docDupRules : Json :=
  .obj [("rules", .arr [mkRule "x" [], mkRule "y" [], mkRule "x" []])]

/-- C3: the pipeline is the fixed sequence duplicate rule IDs, chassis
numbers, device IDs, rail IDs, global IDs, cycle detection, run_rule,
set_device, rule_id, device_id resolution, then array arity (the definition
of validate_config), and it is fail-fast: when two rules share an id the
whole pipeline fails with exactly the duplicate-rule-ID error of the first
check, the later checks contributing nothing to the outcome. -/
theorem claim_C3_pipeline_fail_fast :
    ∀ (config : Json) (ids : List Json),
      get_rule_ids config = .ok ids →
      (∀ i ∈ ids, ∃ s, i = .str s) →
      ¬ ids.Nodup →
      ∃ s, check_duplicate_rule_id config = .error (.duplicateRuleId s) ∧
        validate_config config = .error (.duplicateRuleId s) ∧
        validate_config config = check_duplicate_rule_id config := by
  intro config ids hids hstr hnd
  simp only [get_rule_ids] at hids
  cases hR : pyRules config with
  | error e => rw [hR, pym_bind_error] at hids; exact absurd hids (by simp)
  | ok rulesL =>
      rw [hR, pym_bind_ok] at hids
      have hrulestr : ∀ r ∈ rulesL, ∃ s, pyGetItem r "id" = .ok (.str s) := by
        intro r hr
        obtain ⟨i, hi, hgi⟩ := get_rule_ids_loop_mem rulesL ids hids r hr
        obtain ⟨s, hs⟩ := hstr i hi
        exact ⟨s, hs ▸ hgi⟩
      have hnotok : dup_rule_loop rulesL [] ≠ .ok () := by
        intro hok
        exact hnd ((dup_rule_loop_ok_iff rulesL ids [] hids).mp hok).2
      rcases dup_rule_loop_err_form rulesL [] hrulestr with hok | ⟨s, herr⟩
      · exact absurd hok hnotok
      · have hcheck : check_duplicate_rule_id config = .error (.duplicateRuleId s) := by
          simp only [check_duplicate_rule_id, hR, pym_bind_ok, herr]
        refine ⟨s, hcheck, ?_, ?_⟩
        · simp only [validate_config, check_for_duplicates, hcheck,
            pym_bind_error]
        · simp only [validate_config, check_for_duplicates, hcheck,
            pym_bind_error]

/-- Witness for C3: a document whose first and third rules share the id x
fails the whole pipeline with the duplicate-rule-ID error. -/
theorem claim_C3_witness :
    ∃ s, check_duplicate_rule_id docDupRules = .error (.duplicateRuleId s) ∧
      validate_config docDupRules = .error (.duplicateRuleId s) ∧
      validate_config docDupRules = check_duplicate_rule_id docDupRules :=
  claim_C3_pipeline_fail_fast docDupRules [.str "x", .str "y", .str "x"]
    (by decide) (by intro i hi; fin_cases hi <;> exact ⟨_, rfl⟩) (by decide)

theorem ref_check_loop_ok_iff :
    ∀ (mk : String → VError) (valid vals : List Json),
      ref_check_loop mk valid vals = .ok () ↔ ∀ v ∈ vals, v ∈ valid := by
  intro mk valid vals
  induction vals with
  | nil => simp [ref_check_loop, pym_pure_eq]
  | cons v rest ih =>
      simp only [ref_check_loop]
      by_cases hv : v ∈ valid
      · rw [if_pos hv, ih]
        constructor
        · intro h u hu
          rw [List.mem_cons] at hu
          rcases hu with hu | hu
          · rw [hu]; exact hv
          · exact h u hu
        · intro h u hu
          exact h u (by simp [hu])
      · rw [if_neg hv]
        constructor
        · intro hcontra
          exfalso
          revert hcontra
          cases v <;> simp [pym_throw_eq]
        · intro h
          exact absurd (h v (by simp)) hv

theorem ref_check_loop_err :
    ∀ (mk : String → VError) (valid vals : List Json),
      (∀ v ∈ vals, ∃ s, v = .str s) →
      ¬ (∀ v ∈ vals, v ∈ valid) →
      ∃ s, ref_check_loop mk valid vals = .error (mk s) ∧
        .str s ∈ vals ∧ .str s ∉ valid := by
  intro mk valid vals
  induction vals with
  | nil => intro _ hcontra; exact absurd (by simp) hcontra
  | cons v rest ih =>
      intro hstr hbad
      obtain ⟨s, hs⟩ := hstr v (by simp)
      subst hs
      simp only [ref_check_loop]
      by_cases hv : (Json.str s) ∈ valid
      · rw [if_pos hv]
        have hbad2 : ¬ ∀ u ∈ rest, u ∈ valid := by
          intro hall
          apply hbad
          intro u hu
          rw [List.mem_cons] at hu
          rcases hu with hu | hu
          · rw [hu]; exact hv
          · exact hall u hu
        obtain ⟨s2, h1, h2, h3⟩ := ih (fun u hu => hstr u (by simp [hu])) hbad2
        exact ⟨s2, h1, by simp [h2], h3⟩
      · rw [if_neg hv]
        exact ⟨s, rfl, by simp, hv⟩

/-- Document of the concrete C7 scenario whose rule references an existing
device d1. -/
def docSetDevGood : Json :=
  .obj [
    ("rules", .arr [.obj [("id", .str "r"),
      ("actions", .arr [.obj [("set_device", .str "d1")]])]]),
    ("chassis", .arr [.obj [("number", .num 1),
      ("devices", .arr [.obj [("id", .str "d1")]])]])]

/-- Document of the concrete C7 scenario whose rule references the missing
device d2. -/
def docSetDevBad : Json :=
  .obj [
    ("rules", .arr [.obj [("id", .str "r"),
      ("actions", .arr [.obj [("set_device", .str "d2")]])]]),
    ("chassis", .arr [.obj [("number", .num 1),
      ("devices", .arr [.obj [("id", .str "d1")]])]])]

/-- C7: with the device-ID list computed, the set_device check passes if and
only if every set_device value collected anywhere in the document equals
some device id; when some string value fails to resolve the check fails
with an unresolved-reference error naming an unresolved value; concretely,
with one chassis holding device d1, referencing d1 passes and d2 fails. -/
theorem claim_C7_set_device_resolution :
    (∀ (config : Json) (valid : List Json),
      get_device_ids config = .ok valid →
      (check_set_device_value_exists config = .ok () ↔
        ∀ v ∈ get_values config "set_device" [], v ∈ valid)) ∧
    (∀ (config : Json) (valid : List Json),
      get_device_ids config = .ok valid →
      (∀ v ∈ get_values config "set_device" [], ∃ s, v = .str s) →
      ¬ (∀ v ∈ get_values config "set_device" [], v ∈ valid) →
      ∃ s, check_set_device_value_exists config = .error (.setDeviceNotFound s) ∧
        .str s ∈ get_values config "set_device" [] ∧ .str s ∉ valid) ∧
    check_set_device_value_exists docSetDevGood = .ok () ∧
    check_set_device_value_exists docSetDevBad = .error (.setDeviceNotFound "d2") := by
  refine ⟨?_, ?_, by decide, by decide⟩
  · intro config valid hvalid
    simp only [check_set_device_value_exists, hvalid, pym_bind_ok]
    exact ref_check_loop_ok_iff _ valid _
  · intro config valid hvalid hstr hbad
    simp only [check_set_device_value_exists, hvalid, pym_bind_ok]
    exact ref_check_loop_err _ valid _ hstr hbad

/-- Witness for C7: the resolution equivalence applied to the passing
concrete document. -/
theorem claim_C7_witness :
    check_set_device_value_exists docSetDevGood = .ok () :=
  (claim_C7_set_device_resolution.1 docSetDevGood [.str "d1"] (by decide)).mpr
    (by decide)

theorem dup_device_inner_ok :
    ∀ (devices ids seen : List Json),
      get_device_ids_devices devices = .ok ids →
      (∀ v ∈ ids, v ∉ seen) → ids.Nodup →
      dup_device_inner devices seen = .ok (seen ++ ids) := by
  intro devices
  induction devices with
  | nil =>
      intro ids seen h _ _
      simp only [get_device_ids_devices, pym_pure_eq, Except.ok.injEq] at h
      subst h
      simp [dup_device_inner, pym_pure_eq]
  | cons device rest ih =>
      intro ids seen h hdisj hnd
      simp only [get_device_ids_devices] at h
      cases hid : pyGetItem device "id" with
      | error e => rw [hid, pym_bind_error] at h; exact absurd h (by simp)
      | ok did =>
          rw [hid, pym_bind_ok] at h
          cases hrest : get_device_ids_devices rest with
          | error e => rw [hrest, pym_bind_error] at h; exact absurd h (by simp)
          | ok restIds =>
              rw [hrest, pym_bind_ok, pym_pure_eq, Except.ok.injEq] at h
              subst h
              rw [List.nodup_cons] at hnd
              simp only [dup_device_inner, hid, pym_bind_ok]
              rw [if_neg (hdisj did (by simp))]
              rw [ih restIds (seen ++ [did]) hrest ?_ hnd.2]
              · simp
              · intro v hv
                simp only [List.mem_append, List.mem_singleton]
                push_neg
                refine ⟨hdisj v (by simp [hv]), ?_⟩
                intro hvd
                rw [hvd] at hv
                exact hnd.1 hv

theorem dup_device_inner_err :
    ∀ (devices ids seen : List Json),
      get_device_ids_devices devices = .ok ids →
      (∀ i ∈ ids, ∃ s, i = .str s) →
      ¬ ((∀ v ∈ ids, v ∉ seen) ∧ ids.Nodup) →
      ∃ s, dup_device_inner devices seen = .error (.duplicateDeviceId s) := by
  intro devices
  induction devices with
  | nil =>
      intro ids seen h _ hbad
      simp only [get_device_ids_devices, pym_pure_eq, Except.ok.injEq] at h
      subst h
      exact absurd ⟨by simp, by simp⟩ hbad
  | cons device rest ih =>
      intro ids seen h hstr hbad
      simp only [get_device_ids_devices] at h
      cases hid : pyGetItem device "id" with
      | error e => rw [hid, pym_bind_error] at h; exact absurd h (by simp)
      | ok did =>
          rw [hid, pym_bind_ok] at h
          cases hrest : get_device_ids_devices rest with
          | error e => rw [hrest, pym_bind_error] at h; exact absurd h (by simp)
          | ok restIds =>
              rw [hrest, pym_bind_ok, pym_pure_eq, Except.ok.injEq] at h
              subst h
              obtain ⟨s, hs⟩ := hstr did (by simp)
              subst hs
              simp only [dup_device_inner, hid, pym_bind_ok]
              by_cases hv : (Json.str s) ∈ seen
              · rw [if_pos hv]
                exact ⟨s, rfl⟩
              · rw [if_neg hv]
                apply ih restIds (seen ++ [Json.str s]) hrest
                  (fun i hi => hstr i (by simp [hi]))
                intro ⟨hdisj, hnd⟩
                apply hbad
                constructor
                · intro v hv2
                  rw [List.mem_cons] at hv2
                  rcases hv2 with hv2 | hv2
                  · rw [hv2]; exact hv
                  · intro hvs
                    exact hdisj v hv2 (List.mem_append.mpr (Or.inl hvs))
                · rw [List.nodup_cons]
                  refine ⟨?_, hnd⟩
                  intro hsrest
                  exact hdisj _ hsrest (List.mem_append.mpr (Or.inr (by simp)))

theorem dup_device_outer_err :
    ∀ (chassisL ids seen : List Json),
      get_device_ids_chassis chassisL = .ok ids →
      (∀ i ∈ ids, ∃ s, i = .str s) →
      ¬ ((∀ v ∈ ids, v ∉ seen) ∧ ids.Nodup) →
      ∃ s, dup_device_outer chassisL seen = .error (.duplicateDeviceId s) := by
  intro chassisL
  induction chassisL with
  | nil =>
      intro ids seen h _ hbad
      simp only [get_device_ids_chassis, pym_pure_eq, Except.ok.injEq] at h
      subst h
      exact absurd ⟨by simp, by simp⟩ hbad
  | cons chassis rest ih =>
      intro ids seen h hstr hbad
      simp only [get_device_ids_chassis] at h
      cases hdg : pyDictGet chassis "devices" (.obj []) with
      | error e => rw [hdg, pym_bind_error] at h; exact absurd h (by simp)
      | ok dv =>
          rw [hdg, pym_bind_ok] at h
          cases hit : pyIterVals dv with
          | error e => rw [hit, pym_bind_error] at h; exact absurd h (by simp)
          | ok devices =>
              rw [hit, pym_bind_ok] at h
              cases hin : get_device_ids_devices devices with
              | error e => rw [hin, pym_bind_error] at h; exact absurd h (by simp)
              | ok ids0 =>
                  rw [hin, pym_bind_ok] at h
                  cases hrest : get_device_ids_chassis rest with
                  | error e =>
                      rw [hrest, pym_bind_error] at h; exact absurd h (by simp)
                  | ok ids1 =>
                      rw [hrest, pym_bind_ok, pym_pure_eq, Except.ok.injEq] at h
                      subst h
                      simp only [dup_device_outer, hdg, pym_bind_ok, hit, hin]
                      by_cases hgood :
                          (∀ v ∈ ids0, v ∉ seen) ∧ ids0.Nodup
                      · rw [dup_device_inner_ok devices ids0 seen hin hgood.1
                          hgood.2]
                        rw [pym_bind_ok]
                        apply ih ids1 (seen ++ ids0) hrest
                          (fun i hi => hstr i (by simp [hi]))
                        intro ⟨hdisj1, hnd1⟩
                        apply hbad
                        constructor
                        · intro v hv
                          rw [List.mem_append] at hv
                          rcases hv with hv | hv
                          · exact hgood.1 v hv
                          · intro hvs
                            exact hdisj1 v hv (List.mem_append.mpr (Or.inl hvs))
                        · rw [List.nodup_append]
                          refine ⟨hgood.2, hnd1, ?_⟩
                          intro v hv hv1
                          exact hdisj1 v hv1 (List.mem_append.mpr (Or.inr hv))
                      · obtain ⟨s, hserr⟩ := dup_device_inner_err devices ids0 seen
                          hin (fun i hi => hstr i (by simp [hi])) hgood
                        rw [hserr, pym_bind_error]
                        exact ⟨s, rfl⟩

/-- Document with two chassis, each holding one device, the two devices
sharing the id d1 (each unique within its own chassis). -/
def docCrossChassisDup : Json :=
  .obj [("chassis", .arr
    [.obj [("number", .num 1), ("devices", .arr [.obj [("id", .str "d1")]])],
     .obj [("number", .num 2), ("devices", .arr [.obj [("id", .str "d1")]])]])]

/-- C8: the device-ID registry is shared globally across all chassis: as
soon as the device-ID list of the whole document has a repeat, the check
fails with a duplicate-device-ID error, and it does so in particular for a
document whose duplicated device ids live in two different chassis. -/
theorem claim_C8_device_ids_global :
    (∀ (config : Json) (dids : List Json),
      get_device_ids config = .ok dids →
      (∀ i ∈ dids, ∃ s, i = .str s) →
      ¬ dids.Nodup →
      ∃ s, check_duplicate_device_id config = .error (.duplicateDeviceId s)) ∧
    check_duplicate_device_id docCrossChassisDup =
      .error (.duplicateDeviceId "d1") := by
  refine ⟨?_, by decide⟩
  intro config dids hdids hstr hnd
  simp only [get_device_ids] at hdids
  cases hC : pyChassis config with
  | error e => rw [hC, pym_bind_error] at hdids; exact absurd hdids (by simp)
  | ok chassisL =>
      rw [hC, pym_bind_ok] at hdids
      obtain ⟨s, hs⟩ := dup_device_outer_err chassisL dids [] hdids hstr
        (fun hg => hnd hg.2)
      refine ⟨s, ?_⟩
      simp only [check_duplicate_device_id, hC, pym_bind_ok, hs, pym_bind_error]

/-- Witness for C8: the cross-chassis duplicate document discharges the
general statement. -/
theorem claim_C8_witness :
    ∃ s, check_duplicate_device_id docCrossChassisDup =
      .error (.duplicateDeviceId s) :=
  claim_C8_device_ids_global.1 docCrossChassisDup [.str "d1", .str "d1"]
    (by decide) (by intro i hi; fin_cases hi <;> exact ⟨_, rfl⟩) (by decide)

/-- Total length of a JSON value, with scalars counting 0; agrees with
Python len on lists, dicts and strings. -/
def pyLenD : Json → Nat
  | .arr items => items.length
  | .obj entries => entries.length
  | .str s => s.length
  | _ => 0

/-- Well-formedness of a scanned i2c_write_bytes or i2c_compare_bytes
value, per the schema: an object whose masks and values members, when
present, are arrays. -/
def i2cObjWFb (v : Json) : Bool :=
  match v with
  | .obj entries =>
      (match lookupFirst entries "masks" with
       | none => true
       | some (.arr _) => true
       | some _ => false) &&
      (match lookupFirst entries "values" with
       | none => true
       | some (.arr _) => true
       | some _ => false)
  | _ => false

/-- Arity condition of the claim: an object with a masks member passes when
the length of masks equals the length of values, a missing values member
counting as length 0; an object without a masks member always passes. -/
def masksArityOk (v : Json) : Bool :=
  match v with
  | .obj entries =>
      match lookupFirst entries "masks" with
      | none => true
      | some m => pyLenD m == pyLenD ((lookupFirst entries "values").getD (.arr []))
  | _ => true

theorem any_key_eq_lookup (entries : List (String × Json)) (key : String) :
    (entries.any (fun e => jeq (.str key) (.str e.1))) =
      (lookupFirst entries key).isSome := by
  induction entries with
  | nil => simp [lookupFirst]
  | cons e rest ih =>
      obtain ⟨k, v⟩ := e
      simp only [List.any_cons, lookupFirst]
      simp only [jeq] at ih ⊢
      by_cases h : k = key
      · simp [h]
      · have hkk : (key == k) = false := by
          simp only [beq_eq_false_iff_ne, ne_eq]
          exact fun hh => h hh.symm
        simp [hkk, h, ih]

theorem pym_seq_ok_iff (a b : PyM Unit) :
    (a >>= fun _ => b) = .ok () ↔ a = .ok () ∧ b = .ok () := by
  cases a with
  | error e => simp [pym_bind_error]
  | ok u => cases u; simp [pym_bind_ok]

theorem masks_loop_ok_iff :
    ∀ (kind : String) (objs : List Json),
      (∀ v ∈ objs, i2cObjWFb v = true) →
      (masks_loop kind objs = .ok () ↔ ∀ v ∈ objs, masksArityOk v = true) := by
  intro kind objs
  induction objs with
  | nil => intro _; simp [masks_loop, pym_pure_eq]
  | cons v rest ih =>
      intro hwf
      have hwfv := hwf v (by simp)
      have hwfrest : ∀ u ∈ rest, i2cObjWFb u = true :=
        fun u hu => hwf u (by simp [hu])
      cases v with
      | str s => simp [i2cObjWFb] at hwfv
      | num n => simp [i2cObjWFb] at hwfv
      | bool b => simp [i2cObjWFb] at hwfv
      | null => simp [i2cObjWFb] at hwfv
      | arr items => simp [i2cObjWFb] at hwfv
      | obj entries =>
          simp only [i2cObjWFb, Bool.and_eq_true] at hwfv
          simp only [masks_loop]
          have hcont : pyContains (.str "masks") (.obj entries) =
              .ok ((lookupFirst entries "masks").isSome) := by
            simp [pyContains, any_key_eq_lookup, pym_pure_eq]
          rw [hcont, pym_bind_ok]
          cases hlk : lookupFirst entries "masks" with
          | none =>
              simp only [hlk, Option.isSome_none, Bool.false_eq_true, if_false]
              rw [ih hwfrest]
              constructor
              · intro h u hu
                rw [List.mem_cons] at hu
                rcases hu with hu | hu
                · rw [hu]; simp [masksArityOk, hlk]
                · exact h u hu
              · intro h u hu
                exact h u (by simp [hu])
          | some m =>
              have hm1 := hwfv.1
              rw [hlk] at hm1
              have hml : ∃ ml, m = .arr ml := by
                revert hm1
                cases m <;> simp
              obtain ⟨ml, hml⟩ := hml
              subst hml
              simp only [hlk, Option.isSome_some]
              rw [if_pos trivial]
              have h1 : pyDictGet (.obj entries) "masks" (.arr []) =
                  .ok (.arr ml) := by
                simp [pyDictGet, hlk, pym_pure_eq]
              rw [h1, pym_bind_ok]
              have hvl : ∃ vl, (lookupFirst entries "values").getD (.arr []) =
                  .arr vl := by
                have hv2 := hwfv.2
                cases hlv : lookupFirst entries "values" with
                | none => exact ⟨[], by simp [hlv]⟩
                | some mv =>
                    rw [hlv] at hv2
                    revert hv2
                    cases mv <;> simp
              obtain ⟨vl, hvl⟩ := hvl
              have h2 : pyDictGet (.obj entries) "values" (.arr []) =
                  .ok (.arr vl) := by
                simp only [pyDictGet, hvl, pym_pure_eq]
              rw [h2, pym_bind_ok]
              simp only [pyLen, pym_bind_ok, pym_pure_eq]
              by_cases hlen : ml.length ≠ vl.length
              · rw [if_pos hlen, pym_throw_eq]
                constructor
                · intro hcontra; exact absurd hcontra (by simp)
                · intro h
                  exfalso
                  have harr := h (.obj entries) (by simp)
                  simp only [masksArityOk, hlk, hvl, pyLenD, beq_iff_eq] at harr
                  exact hlen harr
              · rw [if_neg hlen]
                push_neg at hlen
                rw [ih hwfrest]
                constructor
                · intro h u hu
                  rw [List.mem_cons] at hu
                  rcases hu with hu | hu
                  · rw [hu]
                    simp only [masksArityOk, hlk, hvl, pyLenD, beq_iff_eq]
                    exact hlen
                  · exact h u hu
                · intro h u hu
                  exact h u (by simp [hu])

/-- Document whose i2c_write_bytes action has two masks but three values. -/
def docMasksBad : Json :=
  .obj [("rules", .arr [.obj [("id", .str "r"), ("actions", .arr
    [.obj [("i2c_write_bytes", .obj
      [("register", .str "0x01"),
       ("masks", .arr [.num 1, .num 2]),
       ("values", .arr [.num 1, .num 2, .num 3])])]])]])]

/-- Document whose i2c_write_bytes action has matching masks and values. -/
def docMasksGood : Json :=
  .obj [("rules", .arr [.obj [("id", .str "r"), ("actions", .arr
    [.obj [("i2c_write_bytes", .obj
      [("register", .str "0x01"),
       ("masks", .arr [.num 1, .num 2]),
       ("values", .arr [.num 1, .num 2])])]])]])]

/-- Document whose i2c_write_bytes action has values but no masks member. -/
def docMasksNone : Json :=
  .obj [("rules", .arr [.obj [("id", .str "r"), ("actions", .arr
    [.obj [("i2c_write_bytes", .obj
      [("register", .str "0x01"),
       ("values", .arr [.num 1, .num 2, .num 3])])]])]])]

/-- C6: over the schema-shaped i2c objects collected by the deep scan, the
arity check passes exactly when every collected object that has a masks
member has as many masks as values (missing values counting as length 0);
an object without a masks member never fails, even with a values member.
Concretely, masks two and values three fails with the arity-mismatch error,
while matching lengths or an absent masks member passes. -/
theorem claim_C6_masks_arity :
    (∀ config : Json,
      (∀ v ∈ get_values config "i2c_write_bytes" [] ++
          get_values config "i2c_compare_bytes" [], i2cObjWFb v = true) →
      (check_number_of_elements_in_masks config = .ok () ↔
        ∀ v ∈ get_values config "i2c_write_bytes" [] ++
          get_values config "i2c_compare_bytes" [], masksArityOk v = true)) ∧
    check_number_of_elements_in_masks docMasksBad =
      .error (.masksSizeMismatch "i2c_write_bytes" (.arr [.num 1, .num 2])
        (.arr [.num 1, .num 2, .num 3])) ∧
    check_number_of_elements_in_masks docMasksGood = .ok () ∧
    check_number_of_elements_in_masks docMasksNone = .ok () := by
  refine ⟨?_, by decide, by decide, by decide⟩
  intro config hwf
  simp only [check_number_of_elements_in_masks]
  rw [pym_seq_ok_iff]
  rw [masks_loop_ok_iff _ _
    (fun v hv => hwf v (List.mem_append.mpr (Or.inl hv)))]
  rw [masks_loop_ok_iff _ _
    (fun v hv => hwf v (List.mem_append.mpr (Or.inr hv)))]
  constructor
  · intro ⟨h1, h2⟩ v hv
    rcases List.mem_append.mp hv with hv | hv
    · exact h1 v hv
    · exact h2 v hv
  · intro h
    exact ⟨fun v hv => h v (List.mem_append.mpr (Or.inl hv)),
      fun v hv => h v (List.mem_append.mpr (Or.inr hv))⟩

/-- Witness for C6: the matching-lengths document discharges the general
equivalence. -/
theorem claim_C6_witness :
    check_number_of_elements_in_masks docMasksGood = .ok () :=
  (claim_C6_masks_arity.1 docMasksGood (by decide)).mpr (by decide)

/-- Action list of a rule as the cycle detector obtains it: the actions
member, defaulting to an empty dict, iterated. -/
def pyActions (rule : Json) : PyM (List Json) := do
  pyIterVals (← pyDictGet rule "actions" (.obj []))

theorem pyContains_obj_key (entries : List (String × Json)) (key : String) :
    pyContains (.str key) (.obj entries) =
      .ok ((lookupFirst entries key).isSome) := by
  simp [pyContains, any_key_eq_lookup, pym_pure_eq]

theorem pyGetItem_ok_shape {j : Json} {k : String} {v : Json}
    (h : pyGetItem j k = .ok v) :
    ∃ entries, j = .obj entries ∧ lookupFirst entries k = some v := by
  cases j with
  | obj entries =>
      refine ⟨entries, rfl, ?_⟩
      simp only [pyGetItem] at h
      cases hl : lookupFirst entries k with
      | some w =>
          rw [hl] at h
          simp only [pym_pure_eq, Except.ok.injEq] at h
          rw [h]
      | none => rw [hl] at h; exact absurd h (by simp [pym_throw_eq])
  | str s => exact absurd h (by simp [pyGetItem, pym_throw_eq])
  | num n => exact absurd h (by simp [pyGetItem, pym_throw_eq])
  | bool b => exact absurd h (by simp [pyGetItem, pym_throw_eq])
  | null => exact absurd h (by simp [pyGetItem, pym_throw_eq])
  | arr items => exact absurd h (by simp [pyGetItem, pym_throw_eq])

theorem pyContains_true_of_getItem {j : Json} {k : String} {v : Json}
    (h : pyGetItem j k = .ok v) : pyContains (.str k) j = .ok true := by
  obtain ⟨entries, hj, hl⟩ := pyGetItem_ok_shape h
  subst hj
  rw [pyContains_obj_key, hl]
  rfl

theorem cilr_eq_pyActions (fuel : Nat) (config rule_json : Json)
    (call_stack : List Json) :
    check_infinite_loops_in_rule (fuel + 1) config rule_json call_stack =
      (do
        let rid ← pyGetItem rule_json "id"
        let actions ← pyActions rule_json
        let final ← actions_fold (check_infinite_loops_in_rule fuel config) config
          actions (call_stack ++ [rid])
        pure final.dropLast) := by
  rw [cilr_succ_eq]
  simp only [pyActions]
  cases pyDictGet rule_json "actions" (.obj []) with
  | error e => simp [pym_bind_error]
  | ok av => simp [pym_bind_ok]

theorem process_action_loop_err {recur : Json → List Json → PyM (List Json)}
    {config act : Json} {st : List Json} {target : Json}
    (hRR : pyGetItem act "run_rule" = .ok target) (hmem : target ∈ st) :
    process_action recur config act st = .error (.infiniteLoop (st ++ [target])) := by
  simp only [process_action]
  rw [pyContains_true_of_getItem hRR, pym_bind_ok, if_pos rfl, hRR,
    pym_bind_ok, if_pos hmem, pym_throw_eq]

theorem actions_fold_err_of_mem
    {recur : Json → List Json → PyM (List Json)} {config : Json}
    (hpres : ∀ r st st', recur r st = .ok st' → st' = st) :
    ∀ (actions : List Json) (act : Json) (st : List Json),
      act ∈ actions →
      (∃ e, process_action recur config act st = .error e) →
      ∃ e, actions_fold recur config actions st = .error e := by
  intro actions
  induction actions with
  | nil => intro act st hmem _; exact absurd hmem (by simp)
  | cons a rest ih =>
      intro act st hmem hfail
      simp only [actions_fold, List.foldlM_cons]
      rw [List.mem_cons] at hmem
      rcases hmem with hmem | hmem
      · subst hmem
        obtain ⟨e, he⟩ := hfail
        rw [he, pym_bind_error]
        exact ⟨e, rfl⟩
      · cases hp : process_action recur config a st with
        | error e => rw [pym_bind_error]; exact ⟨e, rfl⟩
        | ok st2 =>
            rw [pym_bind_ok]
            rw [process_action_pres hpres config a st st2 hp]
            exact ih act st hmem hfail

theorem run_matching_rules_err_of_mem
    {recur : Json → List Json → PyM (List Json)}
    (hpres : ∀ r st st', recur r st = .ok st' → st' = st) :
    ∀ (rules : List Json) (B target : Json) (st : List Json),
      B ∈ rules →
      pyGetItem B "id" = .ok target →
      (∃ e, recur B st = .error e) →
      ∃ e, run_matching_rules recur target rules st = .error e := by
  intro rules
  induction rules with
  | nil => intro B target st hmem _ _; exact absurd hmem (by simp)
  | cons r rest ih =>
      intro B target st hmem hBid hfail
      simp only [run_matching_rules]
      rw [List.mem_cons] at hmem
      cases hid : pyGetItem r "id" with
      | error e => rw [pym_bind_error]; exact ⟨e, rfl⟩
      | ok rid =>
          rw [pym_bind_ok]
          rcases hmem with hmem | hmem
          · subst hmem
            rw [hid] at hBid
            cases hBid
            rw [if_pos rfl]
            obtain ⟨e, he⟩ := hfail
            rw [he, pym_bind_error]
            exact ⟨e, rfl⟩
          · by_cases ht : rid = target
            · rw [if_pos ht]
              cases hr : recur r st with
              | error e => rw [pym_bind_error]; exact ⟨e, rfl⟩
              | ok st2 =>
                  rw [pym_bind_ok, hpres r st st2 hr]
                  exact ih B target st hmem hBid hfail
            · rw [if_neg ht]
              exact ih B target st hmem hBid hfail

theorem cil_loop_err_of_mem :
    ∀ (fuel : Nat) (config : Json) (rules : List Json) (A : Json),
      A ∈ rules →
      (∃ e, check_infinite_loops_in_rule fuel config A [] = .error e) →
      ∃ e, check_infinite_loops_loop fuel config rules [] = .error e := by
  intro fuel config rules
  induction rules with
  | nil => intro A hmem _; exact absurd hmem (by simp)
  | cons r rest ih =>
      intro A hmem hfail
      simp only [check_infinite_loops_loop]
      rw [List.mem_cons] at hmem
      rcases hmem with hmem | hmem
      · subst hmem
        obtain ⟨e, he⟩ := hfail
        rw [he, pym_bind_error]
        exact ⟨e, rfl⟩
      · cases hr : check_infinite_loops_in_rule fuel config r [] with
        | error e => rw [pym_bind_error]; exact ⟨e, rfl⟩
        | ok st2 =>
            rw [pym_bind_ok, cilr_pres fuel config r [] st2 hr]
            exact ih A hmem hfail

theorem cilr_fails_inner :
    ∀ (fuel : Nat) (config B idb : Json) (bacts : List Json)
      (act2 ida : Json) (st : List Json),
      pyGetItem B "id" = .ok idb →
      pyActions B = .ok bacts →
      act2 ∈ bacts →
      pyGetItem act2 "run_rule" = .ok ida →
      ida ∈ st ++ [idb] →
      ∃ e, check_infinite_loops_in_rule fuel config B st = .error e := by
  intro fuel config B idb bacts act2 ida st hBid hBacts hmem hRR hin
  cases fuel with
  | zero => exact ⟨.fuelOut, rfl⟩
  | succ n =>
      rw [cilr_eq_pyActions, hBid, pym_bind_ok, hBacts, pym_bind_ok]
      have hfail : ∃ e, process_action (check_infinite_loops_in_rule n config)
          config act2 (st ++ [idb]) = .error e :=
        ⟨_, process_action_loop_err hRR hin⟩
      obtain ⟨e, he⟩ := actions_fold_err_of_mem
        (fun r s s' hh => cilr_pres n config r s s' hh) bacts act2
        (st ++ [idb]) hmem hfail
      rw [he, pym_bind_error]
      exact ⟨e, rfl⟩

theorem process_action_err_propagate
    {recur : Json → List Json → PyM (List Json)}
    {config act target : Json} {st : List Json} {rulesL : List Json} {B : Json}
    (hpres : ∀ r st st', recur r st = .ok st' → st' = st)
    (hRR : pyGetItem act "run_rule" = .ok target)
    (hnm : target ∉ st)
    (hR : pyRules config = .ok rulesL)
    (hB : B ∈ rulesL) (hBid : pyGetItem B "id" = .ok target)
    (hBfail : ∃ e, recur B st = .error e) :
    ∃ e, process_action recur config act st = .error e := by
  simp only [process_action]
  rw [pyContains_true_of_getItem hRR, pym_bind_ok, if_pos rfl, hRR,
    pym_bind_ok, if_neg hnm, hR, pym_bind_ok]
  exact run_matching_rules_err_of_mem hpres rulesL B target st hB hBid hBfail

theorem cilr_fails_outer :
    ∀ (fuel : Nat) (config : Json) (rulesL : List Json)
      (A ida : Json) (aacts : List Json) (act idb : Json)
      (B : Json) (bacts : List Json) (act2 : Json),
      pyRules config = .ok rulesL →
      pyGetItem A "id" = .ok ida →
      pyActions A = .ok aacts →
      act ∈ aacts →
      pyGetItem act "run_rule" = .ok idb →
      B ∈ rulesL →
      pyGetItem B "id" = .ok idb →
      pyActions B = .ok bacts →
      act2 ∈ bacts →
      pyGetItem act2 "run_rule" = .ok ida →
      ∃ e, check_infinite_loops_in_rule fuel config A [] = .error e := by
  intro fuel config rulesL A ida aacts act idb B bacts act2 hR hAid hAacts
    hact hactRR hB hBid hBacts hact2 hact2RR
  cases fuel with
  | zero => exact ⟨.fuelOut, rfl⟩
  | succ n =>
      rw [cilr_eq_pyActions, hAid, pym_bind_ok, hAacts, pym_bind_ok]
      have hfail : ∃ e, process_action (check_infinite_loops_in_rule n config)
          config act ([] ++ [ida]) = .error e := by
        by_cases hmm : idb ∈ ([] : List Json) ++ [ida]
        · exact ⟨_, process_action_loop_err hactRR hmm⟩
        · refine process_action_err_propagate
            (fun r s s' hh => cilr_pres n config r s s' hh)
            hactRR hmm hR hB hBid ?_
          exact cilr_fails_inner n config B idb bacts act2 ida ([] ++ [ida])
            hBid hBacts hact2 hact2RR
            (List.mem_append.mpr (Or.inl (by simp)))
      obtain ⟨e, he⟩ := actions_fold_err_of_mem
        (fun r s s' hh => cilr_pres n config r s s' hh) aacts act
        ([] ++ [ida]) hact hfail
      rw [he, pym_bind_error]
      exact ⟨e, rfl⟩

/-- C1 (amended): whenever some rule A of the document carries a run_rule
action on the id of a rule B of the document and B carries a run_rule
action back on the id of A, the cycle-detection pass fails with some error
(never the fuel artifact); the reported path is guaranteed to contain both
A and B only in documents where no earlier failure preempts it, as in the
two concrete two-rule documents, where the path is exactly r1, r2, r1
respectively r2, r1, r2, whichever rule comes first. -/
theorem claim_C1_mutual_run_rule :
    (∀ (config : Json) (rulesL : List Json) (A B ida idb : Json)
        (aacts bacts : List Json) (act act2 : Json),
      pyRules config = .ok rulesL →
      A ∈ rulesL → pyGetItem A "id" = .ok ida →
      pyActions A = .ok aacts → act ∈ aacts →
      pyGetItem act "run_rule" = .ok idb →
      B ∈ rulesL → pyGetItem B "id" = .ok idb →
      pyActions B = .ok bacts → act2 ∈ bacts →
      pyGetItem act2 "run_rule" = .ok ida →
      ∃ e, check_infinite_loops config = .error e ∧ e ≠ .fuelOut) ∧
    check_infinite_loops docTwoRules12 =
      .error (.infiniteLoop [.str "r1", .str "r2", .str "r1"]) ∧
    check_infinite_loops docTwoRules21 =
      .error (.infiniteLoop [.str "r2", .str "r1", .str "r2"]) := by
  refine ⟨?_, by decide, by decide⟩
  intro config rulesL A B ida idb aacts bacts act act2 hR hA hAid hAacts hact
    hactRR hB hBid hBacts hact2 hact2RR
  have hAfail : ∃ e, check_infinite_loops_in_rule (rulesL.length + 1) config
      A [] = .error e :=
    cilr_fails_outer (rulesL.length + 1) config rulesL A ida aacts act idb B
      bacts act2 hR hAid hAacts hact hactRR hB hBid hBacts hact2 hact2RR
  obtain ⟨e, he⟩ := cil_loop_err_of_mem (rulesL.length + 1) config rulesL A
    hA hAfail
  have hcheck : check_infinite_loops config = .error e := by
    simp only [check_infinite_loops, hR, pym_bind_ok, he, pym_bind_error]
  refine ⟨e, hcheck, ?_⟩
  intro hfo
  subst hfo
  exact check_infinite_loops_no_fuel config hcheck

/-- Witness for C1 (amended) at the concrete mutual-recursion document with
the rules listed r1 first. -/
theorem claim_C1_witness :
    ∃ e, check_infinite_loops docTwoRules12 = .error e ∧ e ≠ .fuelOut :=
  claim_C1_mutual_run_rule.1 docTwoRules12
    [mkRule "r1" ["r2"], mkRule "r2" ["r1"]]
    (mkRule "r1" ["r2"]) (mkRule "r2" ["r1"]) (.str "r1") (.str "r2")
    [.obj [("run_rule", .str "r2")]] [.obj [("run_rule", .str "r1")]]
    (.obj [("run_rule", .str "r2")]) (.obj [("run_rule", .str "r1")])
    (by decide) (by decide) (by decide) (by decide) (by decide) (by decide)
    (by decide) (by decide) (by decide) (by decide) (by decide)

/-- C1 counterexample: the document with rules c (a self loop), a (running
b) and b (running a) satisfies the premise of the claim with A = a and
B = b, yet the pass reports the path c, c, which contains neither a nor b:
the path of the reported InfiniteLoop need not contain A and B for every
document satisfying the premise. -/
theorem claim_C1_counterexample :
    pyRules docSelfLoopFirst =
      .ok [mkRule "c" ["c"], mkRule "a" ["b"], mkRule "b" ["a"]] ∧
    mkRule "a" ["b"] ∈ [mkRule "c" ["c"], mkRule "a" ["b"], mkRule "b" ["a"]] ∧
    pyGetItem (mkRule "a" ["b"]) "id" = .ok (.str "a") ∧
    pyActions (mkRule "a" ["b"]) = .ok [.obj [("run_rule", .str "b")]] ∧
    pyGetItem (.obj [("run_rule", .str "b")]) "run_rule" = .ok (.str "b") ∧
    mkRule "b" ["a"] ∈ [mkRule "c" ["c"], mkRule "a" ["b"], mkRule "b" ["a"]] ∧
    pyGetItem (mkRule "b" ["a"]) "id" = .ok (.str "b") ∧
    pyActions (mkRule "b" ["a"]) = .ok [.obj [("run_rule", .str "a")]] ∧
    pyGetItem (.obj [("run_rule", .str "a")]) "run_rule" = .ok (.str "a") ∧
    check_infinite_loops docSelfLoopFirst =
      .error (.infiniteLoop [.str "c", .str "c"]) ∧
    (Json.str "a") ∉ [Json.str "c", Json.str "c"] ∧
    (Json.str "b") ∉ [Json.str "c", Json.str "c"] := by decide

/-- Well-formedness of one rule per the document shape of the data model: an
object with an id member whose actions member, when present, is an array of
objects. -/
def ruleWFb (r : Json) : Bool :=
  match r with
  | .obj entries =>
      (lookupFirst entries "id").isSome &&
      (match lookupFirst entries "actions" with
       | none => true
       | some (.arr acts) =>
           acts.all (fun a =>
             match a with
             | .obj _ => true
             | _ => false)
       | some _ => false)
  | _ => false

theorem ruleWFb_id {r : Json} (h : ruleWFb r = true) :
    ∃ i, pyGetItem r "id" = .ok i := by
  cases r <;> simp_all [ruleWFb]
  case obj entries =>
    obtain ⟨h1, _⟩ := h
    cases hl : lookupFirst entries "id" with
    | none => rw [hl] at h1; exact absurd h1 (by simp)
    | some i => exact ⟨i, by simp [pyGetItem, hl, pym_pure_eq]⟩

theorem ruleWFb_actions {r : Json} (h : ruleWFb r = true) :
    ∃ acts, pyActions r = .ok acts ∧ ∀ a ∈ acts, ∃ ae, a = .obj ae := by
  cases r <;> simp_all [ruleWFb]
  case obj entries =>
    obtain ⟨_, h2⟩ := h
    cases hl : lookupFirst entries "actions" with
    | none =>
        refine ⟨[], ?_, by simp⟩
        simp [pyActions, pyDictGet, pyIterVals, hl, pym_pure_eq, pym_bind_ok]
    | some av =>
        rw [hl] at h2
        cases av with
        | arr acts =>
            refine ⟨acts, ?_, ?_⟩
            · simp [pyActions, pyDictGet, pyIterVals, hl, pym_pure_eq,
                pym_bind_ok]
            · intro a ha
              have := (List.all_eq_true.mp h2) a ha
              revert this
              cases a <;> simp
        | str s => exact absurd h2 (by simp)
        | num m => exact absurd h2 (by simp)
        | bool b => exact absurd h2 (by simp)
        | null => exact absurd h2 (by simp)
        | obj oe => exact absurd h2 (by simp)

/-- Edge relation of the rule call graph of the claim: rule with id x has a
direct top-level action carrying run_rule y. -/
def run_rule_edge (rulesL : List Json) (x y : Json) : Bool :=
  rulesL.any (fun r =>
    (match pyGetItem r "id" with
     | .ok i => jeq i x
     | .error _ => false) &&
    (match pyActions r with
     | .ok acts =>
         acts.any (fun a =>
           match pyGetItem a "run_rule" with
           | .ok t => jeq t y
           | .error _ => false)
     | .error _ => false))

theorem edge_intro {rulesL : List Json} {r x : Json} {acts : List Json}
    {a y : Json} (hr : r ∈ rulesL) (hid : pyGetItem r "id" = .ok x)
    (hacts : pyActions r = .ok acts) (ha : a ∈ acts)
    (hRR : pyGetItem a "run_rule" = .ok y) :
    run_rule_edge rulesL x y = true := by
  refine List.any_eq_true.mpr ⟨r, hr, ?_⟩
  rw [Bool.and_eq_true]
  constructor
  · simp only [hid]
    exact (jeq_iff x x).mpr rfl
  · simp only [hacts]
    exact List.any_eq_true.mpr ⟨a, ha, by
      simp only [hRR]
      exact (jeq_iff y y).mpr rfl⟩

theorem chain'_getLast_or_transGen {R : Json → Json → Prop} :
    ∀ (l : List Json) (t x : Json),
      t ∈ l → List.Chain' R l → l.getLast? = some x →
      t = x ∨ Relation.TransGen R t x := by
  intro l
  induction l with
  | nil => intro t x hmem _ _; exact absurd hmem (by simp)
  | cons a rest ih =>
      intro t x hmem hchain hlast
      rw [List.mem_cons] at hmem
      cases rest with
      | nil =>
          simp only [List.getLast?_singleton, Option.some.injEq] at hlast
          rcases hmem with hmem | hmem
          · left; rw [hmem, hlast]
          · exact absurd hmem (by simp)
      | cons b rest2 =>
          rw [List.chain'_cons] at hchain
          rw [List.getLast?_cons_cons] at hlast
          rcases hmem with hmem | hmem
          · subst hmem
            rcases ih b x (by simp) hchain.2 hlast with hb | hb
            · right; exact Relation.TransGen.single (hb ▸ hchain.1)
            · right; exact Relation.TransGen.head hchain.1 hb
          · exact ih t x hmem hchain.2 hlast

theorem transGen_cycle_of_chain {R : Json → Json → Prop} {l : List Json}
    {x t : Json} (hchain : List.Chain' R (l ++ [x])) (hR : R x t)
    (hmem : t ∈ l ++ [x]) : Relation.TransGen R t t := by
  have hlast : (l ++ [x]).getLast? = some x := List.getLast?_concat _
  rcases chain'_getLast_or_transGen (l ++ [x]) t x hmem hchain hlast with h | h
  · subst h; exact Relation.TransGen.single hR
  · exact Relation.TransGen.tail h hR

theorem chain'_snoc {R : Json → Json → Prop} {l : List Json} {x y : Json}
    (h : List.Chain' R (l ++ [x])) (hxy : R x y) :
    List.Chain' R ((l ++ [x]) ++ [y]) := by
  rw [List.chain'_append]
  refine ⟨h, List.chain'_singleton y, ?_⟩
  intro u hu v hv
  rw [List.getLast?_concat, Option.mem_def, Option.some.injEq] at hu
  simp only [List.head?_cons, Option.mem_def, Option.some.injEq] at hv
  rw [hu, hv] at hxy
  exact hxy

/-- Success of one traversal on a well-formed document with an acyclic rule
call graph: the stack always lists the ids of the current path, so a
run_rule target already on the stack would close a cycle; with no cycles,
every traversal returns normally with its stack restored. -/
theorem cilr_acyclic_ok :
    ∀ (fuel : Nat) (config : Json) (rulesL : List Json) (rule : Json)
      (st : List Json) (rid : Json),
      pyRules config = .ok rulesL →
      (∀ r ∈ rulesL, ruleWFb r = true) →
      (∀ x, ¬ Relation.TransGen
        (fun u v => run_rule_edge rulesL u v = true) x x) →
      rule ∈ rulesL →
      pyGetItem rule "id" = .ok rid →
      List.Chain' (fun u v => run_rule_edge rulesL u v = true) (st ++ [rid]) →
      numIds config (st ++ [rid]) < fuel →
      check_infinite_loops_in_rule fuel config rule st = .ok st := by
  intro fuel
  induction fuel with
  | zero =>
      intro config rulesL rule st rid _ _ _ _ _ _ hlt
      exact absurd hlt (by simp)
  | succ n ih =>
      intro config rulesL rule st rid hR hWF hAcyc hrule hrid hchain hlt
      rw [cilr_eq_pyActions, hrid, pym_bind_ok]
      obtain ⟨acts, hacts, hactsobj⟩ := ruleWFb_actions (hWF rule hrule)
      rw [hacts, pym_bind_ok]
      have hnum : numIds config (st ++ [rid]) ≤ n := Nat.lt_succ_iff.mp hlt
      have hfold : ∀ acts2 : List Json, (∀ a ∈ acts2, a ∈ acts) →
          actions_fold (check_infinite_loops_in_rule n config) config acts2
            (st ++ [rid]) = .ok (st ++ [rid]) := by
        intro acts2
        induction acts2 with
        | nil => intro _; simp [actions_fold, List.foldlM_nil, pym_pure_eq]
        | cons a rest ihl =>
            intro hsub
            simp only [actions_fold, List.foldlM_cons]
            have hstep : process_action (check_infinite_loops_in_rule n config)
                config a (st ++ [rid]) = .ok (st ++ [rid]) := by
              obtain ⟨ae, hae⟩ := hactsobj a (hsub a (by simp))
              subst hae
              simp only [process_action]
              rw [pyContains_obj_key, pym_bind_ok]
              cases hlk : lookupFirst ae "run_rule" with
              | none => simp [pym_pure_eq]
              | some tv =>
                  simp only [Option.isSome_some]
                  rw [if_pos trivial]
                  have hRRa : pyGetItem (.obj ae) "run_rule" = .ok tv := by
                    simp [pyGetItem, hlk, pym_pure_eq]
                  rw [hRRa, pym_bind_ok]
                  have hedge : run_rule_edge rulesL rid tv = true :=
                    edge_intro hrule hrid hacts (hsub _ (by simp)) hRRa
                  have hnm : tv ∉ st ++ [rid] := by
                    intro hmm
                    exact hAcyc tv (transGen_cycle_of_chain hchain hedge hmm)
                  rw [if_neg hnm, hR, pym_bind_ok]
                  have hrun : ∀ rl2 : List Json, (∀ r ∈ rl2, r ∈ rulesL) →
                      run_matching_rules (check_infinite_loops_in_rule n config)
                        tv rl2 (st ++ [rid]) = .ok (st ++ [rid]) := by
                    intro rl2
                    induction rl2 with
                    | nil =>
                        intro _
                        simp [run_matching_rules, pym_pure_eq]
                    | cons r2 rest2 ihr =>
                        intro hsub2
                        simp only [run_matching_rules]
                        obtain ⟨i2, hi2⟩ :=
                          ruleWFb_id (hWF r2 (hsub2 r2 (by simp)))
                        rw [hi2, pym_bind_ok]
                        by_cases ht : i2 = tv
                        · rw [if_pos ht]
                          have htin : tv ∈ idsOfConfig config :=
                            mem_idsOfConfig hR (hsub2 r2 (by simp)) (ht ▸ hi2)
                          have hnew : check_infinite_loops_in_rule n config r2
                              (st ++ [rid]) = .ok (st ++ [rid]) := by
                            apply ih config rulesL r2 (st ++ [rid]) tv hR hWF
                              hAcyc (hsub2 r2 (by simp)) (ht ▸ hi2)
                              (chain'_snoc hchain hedge)
                            calc numIds config ((st ++ [rid]) ++ [tv]) <
                                  numIds config (st ++ [rid]) :=
                                numIds_push_lt htin hnm
                              _ ≤ n := hnum
                          rw [hnew, pym_bind_ok]
                          exact ihr (fun r hr => hsub2 r (by simp [hr]))
                        · rw [if_neg ht]
                          exact ihr (fun r hr => hsub2 r (by simp [hr]))
                  exact hrun rulesL (fun r hr => hr)
            rw [hstep, pym_bind_ok]
            exact ihl (fun u hu => hsub u (by simp [hu]))
      rw [hfold acts (fun a ha => ha), pym_bind_ok, pym_pure_eq,
        List.dropLast_concat]

/-- Document with a single rule and no actions. -/
def docOneRule : Json := .obj [("rules", .arr [mkRule "solo" []])]

/-- C5: on a document whose rules are well formed with pairwise-distinct ids
and whose run_rule call graph, with edges taken from the direct top-level
action entries only, has no cycle, cycle detection reports success; in
particular the diamond document, whose rule bot is reachable from top via
the two disjoint paths through l and r, passes without a false infinite
loop. -/
theorem claim_C5_acyclic_success :
    (∀ (config : Json) (rulesL : List Json),
      pyRules config = .ok rulesL →
      (∀ r ∈ rulesL, ruleWFb r = true) →
      (∀ ids, get_rule_ids config = .ok ids → ids.Nodup) →
      (∀ x, ¬ Relation.TransGen
        (fun u v => run_rule_edge rulesL u v = true) x x) →
      check_infinite_loops config = .ok ()) ∧
    check_infinite_loops docDiamond = .ok () := by
  refine ⟨?_, by decide⟩
  intro config rulesL hR hWF hdist hAcyc
  simp only [check_infinite_loops, hR, pym_bind_ok]
  have hloop : ∀ rl2 : List Json, (∀ r ∈ rl2, r ∈ rulesL) →
      check_infinite_loops_loop (rulesL.length + 1) config rl2 [] = .ok [] := by
    intro rl2
    induction rl2 with
    | nil => intro _; simp [check_infinite_loops_loop, pym_pure_eq]
    | cons r rest ih =>
        intro hsub
        simp only [check_infinite_loops_loop]
        obtain ⟨i, hi⟩ := ruleWFb_id (hWF r (hsub r (by simp)))
        have hone : check_infinite_loops_in_rule (rulesL.length + 1) config
            r [] = .ok [] := by
          apply cilr_acyclic_ok (rulesL.length + 1) config rulesL r [] i hR
            hWF hAcyc (hsub r (by simp)) hi (by simp)
          calc numIds config ([] ++ [i]) ≤ numIds config [] :=
                numIds_push_le config [] i
            _ ≤ rulesL.length := numIds_le_length hR []
            _ < rulesL.length + 1 := Nat.lt_succ_self _
        rw [hone, pym_bind_ok]
        exact ih (fun u hu => hsub u (by simp [hu]))
  rw [hloop rulesL (fun r hr => hr), pym_bind_ok, pym_pure_eq]

/-- Witness for C5 at the one-rule document: no run_rule action exists, so
the call graph has no edge at all and the pass succeeds. -/
theorem claim_C5_witness : check_infinite_loops docOneRule = .ok () :=
  claim_C5_acyclic_success.1 docOneRule [mkRule "solo" []]
    (by decide) (by decide)
    (by
      intro ids h
      rw [show get_rule_ids docOneRule = Except.ok [Json.str "solo"] from
        by decide] at h
      cases h
      decide)
    (by
      intro x htg
      have hn : ∀ u v : Json,
          ¬ run_rule_edge [mkRule "solo" []] u v = true := by
        intro u v hc
        simp [run_rule_edge, mkRule, pyActions, pyGetItem, pyDictGet,
          pyIterVals, lookupFirst, pym_pure_eq, pym_bind_ok] at hc
      cases htg with
      | single h => exact hn _ _ h
      | tail _ h => exact hn _ _ h)
